import Mathlib

/-!
# Horse racing game: verification of the race engine and store

A shallow embedding of the core logic of the horse-racing simulation:
the per-frame physics (`calculateNewPosition` and friends from the race
animation utilities), result ranking (`compileRaceResults`), the roster
generator (`generateHorses`), the schedule builder (`createRaceSchedule`),
and the game store actions (`startRacing`, `pauseRacing`, `startNextRace`,
`completeCurrentRace`, `resetGame`) together with the persistence
projection and rehydration hook.

Modelling conventions:
* JavaScript numbers are modelled as rationals (`ℚ`); every arithmetic
  operation used by the source is exact on the inputs the claims range over.
* `undefined` / absent optional fields are `Option.none`.
* The JavaScript truthiness operator `x || y` on numbers falls through to
  `y` both when `x` is `undefined` and when `x` is `0`; it is modelled by
  `jsNumOr`.
* `Math.random()` draws are modelled as oracle functions `ℕ → ℚ` supplying
  the value consumed by each call site, constrained to `[0, 1)` in the
  theorems that need it.
* `Array.prototype.sort` with a consistent comparator is the stable
  ascending sort (ECMAScript 2019 requires stability); it is modelled with
  `List.insertionSort`, which is stable and sorted for a total preorder.
-/

namespace HorseRace

-- =============================================================================
-- DATA MODEL (src/types)
-- =============================================================================

/-- A horse of the roster: `{ id, name, condition, color }`. -/
structure Horse where
  id : String
  name : String
  condition : Int
  color : String
  deriving Repr, DecidableEq

/-- Per-race, per-horse animation state (`HorsePosition` in the source). -/
structure HorsePosition where
  horseId : String
  position : ℚ
  lane : Nat
  speed : ℚ
  finishTime : Option ℚ
  deriving Repr, DecidableEq

/-- Race status enum. -/
inductive RaceStatus where
  | pending
  | running
  | completed
  deriving Repr, DecidableEq

/-- `ROUND_DISTANCES = [1200, 1400, 1600, 1800, 2000, 2200]`. -/
def ROUND_DISTANCES : List ℚ := [1200, 1400, 1600, 1800, 2000, 2200]

/-- A single race round of the schedule. -/
structure Race where
  roundNumber : Nat
  distance : ℚ
  horseIds : List String
  status : RaceStatus
  startTime : Option ℚ
  endTime : Option ℚ
  deriving Repr, DecidableEq

/-- One horse's entry in a completed race's results.  The source stores the
looked-up horse with a non-null assertion (`horse!`); the lookup itself can
produce `undefined`, so the field is an `Option`. -/
structure RaceResultEntry where
  horseId : String
  position : Nat
  time : ℚ
  horse : Option Horse
  deriving Repr, DecidableEq

/-- A completed race's record as appended to the store's `results`. -/
structure RaceResult where
  roundNumber : Nat
  distance : ℚ
  results : List RaceResultEntry
  completedAt : ℚ
  deriving Repr, DecidableEq

/-- Game lifecycle enum. -/
inductive GameState where
  | idle
  | horsesReady
  | scheduleReady
  | racing
  | paused
  | completed
  deriving Repr, DecidableEq

/-- Ephemeral race-execution (animation) state. -/
structure RaceExecutionState where
  currentRace : Option Race
  horsePositions : List HorsePosition
  isAnimating : Bool
  animationStartTime : Option ℚ
  deriving Repr, DecidableEq

/-- The Zustand store's state fields. -/
structure GameStoreState where
  gameState : GameState
  horses : List Horse
  schedule : Option (List Race)
  raceExecution : RaceExecutionState
  results : List RaceResult
  currentRoundIndex : Nat
  deriving Repr, DecidableEq

-- =============================================================================
-- SMALL JS-SEMANTICS HELPERS
-- =============================================================================

/-- JavaScript `x || y` on an optional number: falls through to `y` when `x`
is `undefined` or `0` (both falsy). -/
def jsNumOr (x : Option ℚ) (y : ℚ) : ℚ :=
  match x with
  | none => y
  | some v => if v = 0 then y else v

/-- JavaScript `array.map((x, index) => f index x)`. -/
def jsMapIdxFrom (f : Nat → α → β) : Nat → List α → List β
  | _, [] => []
  | k, a :: as => f k a :: jsMapIdxFrom f (k + 1) as

/-- `array.map` with the index callback argument, starting at index 0. -/
def jsMapIdx (f : Nat → α → β) (l : List α) : List β :=
  jsMapIdxFrom f 0 l

-- =============================================================================
-- RACE PHYSICS (race animation utilities)
-- =============================================================================

/-- `BASE_DISTANCE = 1200`. -/
def BASE_DISTANCE : ℚ := 1200

/-- `SPEED_DIVISOR = 50`. -/
def SPEED_DIVISOR : ℚ := 50

/-- `calculateNewPosition`: the per-frame physics update.  In the source the
early return fires when `hp.finishTime !== undefined`; in the remaining
branch `hp.finishTime` is `undefined`, so the `justFinished ? currentTime :
hp.finishTime` expression yields `none` when the horse did not just cross. -/
def calculateNewPosition (hp : HorsePosition) (deltaTime distanceMultiplier
    speedVariation currentTime : ℚ) : HorsePosition :=
  match hp.finishTime with
  | some _ => hp
  | none =>
    let moveAmount :=
      hp.speed * speedVariation *
        (deltaTime / (SPEED_DIVISOR * distanceMultiplier))
    let newPosition := min (hp.position + moveAmount) 100
    { hp with
      position := newPosition
      finishTime :=
        if hp.position < 100 ∧ 100 ≤ newPosition then some currentTime
        else none }

/-- `calculateDistanceMultiplier(distance) = distance / BASE_DISTANCE`. -/
def calculateDistanceMultiplier (distance : ℚ) : ℚ :=
  distance / BASE_DISTANCE

/-- `checkAllFinished`: every horse has a finish time. -/
def checkAllFinished (positions : List HorsePosition) : Bool :=
  positions.all fun hp => hp.finishTime.isSome

/-- Sort key of `sortByFinishTime`'s comparator: `a.finishTime || 0`. -/
def finishKey (hp : HorsePosition) : ℚ :=
  jsNumOr hp.finishTime 0

instance finishKeyLeDecidable :
    DecidableRel fun a b : HorsePosition => finishKey a ≤ finishKey b :=
  fun a b => inferInstanceAs (Decidable (finishKey a ≤ finishKey b))

/-- `sortByFinishTime`: stable ascending sort by `(a.finishTime || 0)`. -/
def sortByFinishTime (positions : List HorsePosition) : List HorsePosition :=
  positions.insertionSort fun a b => finishKey a ≤ finishKey b

/-- `compileRaceResults`: sort by finish time, assign 1-based dense positions,
compute `time = (hp.finishTime || currentTime) - (animationStartTime || 0)`,
and attach the looked-up horse. -/
def compileRaceResults (positions : List HorsePosition) (horses : List Horse)
    (animationStartTime : Option ℚ) (currentTime : ℚ) : List RaceResultEntry :=
  let sortedPositions := sortByFinishTime positions
  jsMapIdx
    (fun index hp =>
      { horseId := hp.horseId
        position := index + 1
        time := jsNumOr hp.finishTime currentTime - jsNumOr animationStartTime 0
        horse := horses.find? fun h => h.id == hp.horseId })
    sortedPositions

-- =============================================================================
-- RACE HELPERS (store/helpers/raceHelpers.ts)
-- =============================================================================

/-- `calculateHorseSpeed(condition) = 0.5 + (condition / 100) * 0.5`. -/
def calculateHorseSpeed (condition : ℚ) : ℚ :=
  0.5 + condition / 100 * 0.5

/-- `initializeHorsePositions`: each participant starts at position 0 in the
1-based lane of its index, with speed derived from its condition (default 50
when the id does not resolve). -/
def initHorsePositions (horseIds : List String) (horses : List Horse) :
    List HorsePosition :=
  jsMapIdx
    (fun index horseId =>
      let condition :=
        ((horses.find? fun h => h.id == horseId).map Horse.condition).getD 50
      { horseId := horseId
        position := 0
        lane := index + 1
        speed := calculateHorseSpeed (condition : ℚ)
        finishTime := none })
    horseIds

-- =============================================================================
-- ROSTER GENERATOR (horseGenerator.ts)
-- =============================================================================

/-- The 19 curated horse names. -/
def HORSE_NAMES : List String :=
  ["Gülbatur", "Bold Pilot", "Karayel", "Sergen Yalçin", "Turbo",
   "Yavuzhan", "Özgünhan", "Caş", "Hizlitay", "Demirklir",
   "Altaha", "Sakarya", "Şahinkaya", "Baturşah", "Karaüzüm",
   "Kafkasli", "Aslankaya", "Yildirimhan", "Bozkurt"]

/-- The fixed palette of 20 colors. -/
def HORSE_COLORS : List String :=
  ["#FF6B6B", "#4ECDC4", "#45B7D1", "#FFA07A", "#98D8C8",
   "#F7DC6F", "#BB8FCE", "#85C1E2", "#F8B739", "#52BE80",
   "#EC7063", "#5DADE2", "#F1948A", "#82E0AA", "#F4D03F",
   "#AF7AC5", "#76D7C4", "#F5B041", "#E74C3C", "#3498DB"]

/-- `randomInt(min, max) = Math.floor(Math.random() * (max - min + 1)) + min`,
with the `Math.random()` draw passed in as `q`. -/
def randomInt (q : ℚ) (lo hi : Int) : Int :=
  ⌊q * ((hi : ℚ) - (lo : ℚ) + 1)⌋ + lo

/-- `generateHorses`.  The source shuffles the palette with
`[...HORSE_COLORS].sort(() => Math.random() - 0.5)` — a sort under an
inconsistent comparator, whose order is implementation defined but which
always returns a rearrangement of the same elements; it is modelled by the
parameter `shuffledColors`, constrained to be a permutation of
`HORSE_COLORS` in the theorems.  `condRand i` is the `Math.random()` draw
used for horse `i`'s condition. -/
def generateHorses (shuffledColors : List String) (condRand : Nat → ℚ) :
    List Horse :=
  let names := HORSE_NAMES
  let allNames := if names.length < 20 then names ++ ["Thunder"] else names
  jsMapIdx
    (fun index name =>
      { id := "horse_" ++ toString (index + 1)
        name := name
        condition := randomInt (condRand index) 1 100
        color := shuffledColors.getD index "" })
    (allNames.take 20)

-- =============================================================================
-- SCHEDULE BUILDER (scheduleHelpers.ts)
-- =============================================================================

/-- Swap two positions of a list; identity when either index is out of
range (the source only ever swaps in-range indices). -/
def listSwap (l : List α) (i j : Nat) : List α :=
  match l[i]?, l[j]? with
  | some a, some b => (l.set i b).set j a
  | _, _ => l

/-- The Fisher–Yates loop `for (i = n-1; i > 0; i--)`, with `rand i` the
`Math.random()` draw consumed at loop counter `i`:
`j = Math.floor(rand i * (i + 1))`. -/
def fyLoop (rand : Nat → ℚ) : Nat → List α → List α
  | 0, l => l
  | i + 1, l =>
    let j := (⌊rand (i + 1) * ((i : ℚ) + 2)⌋).toNat
    fyLoop rand i (listSwap l (i + 1) j)

/-- `shuffleArray`: Fisher–Yates shuffle of a copy of the array. -/
def shuffleArray (rand : Nat → ℚ) (array : List α) : List α :=
  fyLoop rand (array.length - 1) array

/-- `selectRandomHorses`: shuffle and take the first 10 ids. -/
def selectRandomHorses (rand : Nat → ℚ) (horses : List Horse) : List String :=
  ((shuffleArray rand horses).take 10).map Horse.id

/-- `createRaceSchedule`: one race per entry of `ROUND_DISTANCES`, with
round number `index + 1` and an independent random selection of horses
(`rand index` is the random oracle used by round `index`'s shuffle). -/
def createRaceSchedule (rand : Nat → Nat → ℚ) (horses : List Horse) :
    List Race :=
  jsMapIdx
    (fun index distance =>
      { roundNumber := index + 1
        distance := distance
        horseIds := selectRandomHorses (rand index) horses
        status := RaceStatus.pending
        startTime := none
        endTime := none })
    ROUND_DISTANCES

-- =============================================================================
-- GAME STORE (useGameStore.ts)
-- =============================================================================

/-- `initialRaceExecution`. -/
def initialRaceExecution : RaceExecutionState :=
  { currentRace := none
    horsePositions := []
    isAnimating := false
    animationStartTime := none }

/-- `initialState`. -/
def initialState : GameStoreState :=
  { gameState := GameState.idle
    horses := []
    schedule := none
    raceExecution := initialRaceExecution
    results := []
    currentRoundIndex := 0 }

/-- `startNextRace` action; `now` models `Date.now()`. -/
def startNextRace (now : ℚ) (s : GameStoreState) : GameStoreState :=
  match s.schedule with
  | none => s
  | some schedule =>
    if s.gameState ≠ GameState.racing then s
    else if hlen : schedule.length ≤ s.currentRoundIndex then
      { s with gameState := GameState.completed }
    else
      let currentRace := schedule.get ⟨s.currentRoundIndex, Nat.lt_of_not_le hlen⟩
      let horsePositions := initHorsePositions currentRace.horseIds s.horses
      let updatedSchedule :=
        jsMapIdx
          (fun index race =>
            if index = s.currentRoundIndex then
              { race with status := RaceStatus.running, startTime := some now }
            else race)
          schedule
      { s with
        schedule := some updatedSchedule
        raceExecution :=
          { currentRace := some { currentRace with status := RaceStatus.running }
            horsePositions := horsePositions
            isAnimating := true
            animationStartTime := some now } }

/-- `completeCurrentRace` action.  Returns `none` on the path where the
source would dereference `schedule[currentRoundIndex]` out of range (a
TypeError); otherwise `some` of the updated state. -/
def completeCurrentRace (raceResults : List RaceResultEntry) (now : ℚ)
    (s : GameStoreState) : Option GameStoreState :=
  match s.schedule, s.raceExecution.currentRace with
  | some schedule, some _ =>
    match schedule[s.currentRoundIndex]? with
    | none => none
    | some currentRace =>
      let raceResult : RaceResult :=
        { roundNumber := currentRace.roundNumber
          distance := currentRace.distance
          results := raceResults.insertionSort fun a b => a.position ≤ b.position
          completedAt := now }
      let updatedSchedule :=
        jsMapIdx
          (fun index race =>
            if index = s.currentRoundIndex then
              { race with status := RaceStatus.completed, endTime := some now }
            else race)
          schedule
      let nextRoundIndex := s.currentRoundIndex + 1
      let allRacesCompleted := schedule.length ≤ nextRoundIndex
      some
        { s with
          schedule := some updatedSchedule
          results := s.results ++ [raceResult]
          currentRoundIndex := nextRoundIndex
          raceExecution := initialRaceExecution
          gameState :=
            if allRacesCompleted then GameState.completed else GameState.racing }
  | _, _ => some s

/-- `startRacing` action: guard, set RACING, then `startNextRace`. -/
def startRacing (now : ℚ) (s : GameStoreState) : GameStoreState :=
  if s.gameState ≠ GameState.scheduleReady then s
  else startNextRace now { s with gameState := GameState.racing }

/-- `pauseRacing` action. -/
def pauseRacing (s : GameStoreState) : GameStoreState :=
  if s.gameState ≠ GameState.racing then s
  else
    { s with
      gameState := GameState.paused
      raceExecution := { s.raceExecution with isAnimating := false } }

/-- `resumeRacing` action. -/
def resumeRacing (s : GameStoreState) : GameStoreState :=
  if s.gameState ≠ GameState.paused then s
  else
    { s with
      gameState := GameState.racing
      raceExecution := { s.raceExecution with isAnimating := true } }

/-- `resetGame` action: `set(initialState)`. -/
def resetGame (_s : GameStoreState) : GameStoreState :=
  initialState

-- =============================================================================
-- PERSISTENCE (persist middleware configuration)
-- =============================================================================

/-- The persisted record shape: exactly the five durable fields (the
`partialize` projection excludes `raceExecution`). -/
structure PersistedState where
  gameState : GameState
  horses : List Horse
  schedule : Option (List Race)
  results : List RaceResult
  currentRoundIndex : Nat
  deriving Repr, DecidableEq

/-- The `partialize` projection of the persist middleware. -/
def persistedOfState (s : GameStoreState) : PersistedState :=
  { gameState := s.gameState
    horses := s.horses
    schedule := s.schedule
    results := s.results
    currentRoundIndex := s.currentRoundIndex }

/-- The `onRehydrateStorage` hook: RACING and PAUSED are coerced to
SCHEDULE_READY, every other state is restored unchanged. -/
def rehydrate (p : PersistedState) : PersistedState :=
  if p.gameState = GameState.racing ∨ p.gameState = GameState.paused then
    { p with gameState := GameState.scheduleReady }
  else p

-- =============================================================================
-- ITERATED-UPDATE MODELS (for the multi-tick claims)
-- =============================================================================

/-- The argument bundle of one `calculateNewPosition` call. -/
structure UpdateParams where
  deltaTime : ℚ
  distanceMultiplier : ℚ
  speedVariation : ℚ
  currentTime : ℚ
  deriving Repr, DecidableEq

/-- Apply a sequence of physics updates to one participant. -/
def applyUpdates (hp : HorsePosition) (ps : List UpdateParams) : HorsePosition :=
  ps.foldl
    (fun h p =>
      calculateNewPosition h p.deltaTime p.distanceMultiplier p.speedVariation
        p.currentTime)
    hp

/-- A two-participant synthetic race: both horses are updated on every tick
with `deltaTime = 16`, the same distance multiplier and the same per-tick
timestamp `ct n`, each with its own speed-variation draw. -/
def runTicks (dm : ℚ) (svA svB ct : Nat → ℚ) (a b : HorsePosition) :
    Nat → HorsePosition × HorsePosition
  | 0 => (a, b)
  | n + 1 =>
    let s := runTicks dm svA svB ct a b n
    (calculateNewPosition s.1 16 dm (svA n) (ct n),
     calculateNewPosition s.2 16 dm (svB n) (ct n))

-- =============================================================================
-- RACE-SEQUENCE RUNNER (for the end-to-end claims)
-- =============================================================================

/-- The external inputs of one full round: the ranked entries handed to
`completeCurrentRace`, the `Date.now()` at race start and at completion. -/
structure RoundInput where
  entries : List RaceResultEntry
  startAt : ℚ
  finishAt : ℚ
  deriving Repr, DecidableEq

/-- One full round as driven by the animation loop: `startNextRace`, then
`completeCurrentRace` once every horse finished. -/
def raceCycle (c : RoundInput) (s : GameStoreState) : Option GameStoreState :=
  completeCurrentRace c.entries c.finishAt (startNextRace c.startAt s)

/-- Run a sequence of rounds. -/
def runRounds : List RoundInput → GameStoreState → Option GameStoreState
  | [], s => some s
  | c :: rest, s => (raceCycle c s).bind (runRounds rest)

-- =============================================================================
-- CONCRETE WITNESS FIXTURES
-- =============================================================================

/-- C1 witness fixture: a horse just short of the finish line. -/
def hpC1 : HorsePosition :=
  { horseId := "h1", position := 99, lane := 1, speed := 1, finishTime := none }

/-- C10 witness fixture: an unfinished horse parked at 100. -/
def hpC10 : HorsePosition :=
  { horseId := "h2", position := 100, lane := 2, speed := 1, finishTime := none }

/-- C10 witness fixture: one valid update frame. -/
def psC10 : List UpdateParams :=
  [{ deltaTime := 16, distanceMultiplier := 1, speedVariation := 1,
     currentTime := 42 }]

/-- C6 witness fixture: a deterministic 20-horse roster. -/
def rosterC6 : List Horse :=
  (List.range 20).map fun i =>
    { id := "horse_" ++ toString (i + 1)
      name := "Name " ++ toString (i + 1)
      condition := 50
      color := "#" ++ toString i }

/-- C9 witness fixture: the speed-1 horse. -/
def a0C9 : HorsePosition :=
  { horseId := "fast", position := 0, lane := 1, speed := 1, finishTime := none }

/-- C9 witness fixture: the speed-1/2 horse. -/
def b0C9 : HorsePosition :=
  { horseId := "slow", position := 0, lane := 2, speed := 1 / 2,
    finishTime := none }

/-- C9 witness fixture: the deterministic run — distance multiplier 1, all
speed variations 1, tick `n` stamped with time `n`. -/
def runC9 (n : ℕ) : HorsePosition × HorsePosition :=
  runTicks 1 (fun _ => 1) (fun _ => 1) (fun m => (m : ℚ)) a0C9 b0C9 n

/-- C2 witness fixture: race `i + 1` of a bare six-race schedule. -/
def raceC2 (i : Nat) : Race :=
  { roundNumber := i + 1, distance := 1200, horseIds := [],
    status := RaceStatus.pending, startTime := none, endTime := none }

/-- C2 witness fixture: a six-race schedule. -/
def schC2 : List Race :=
  [raceC2 0, raceC2 1, raceC2 2, raceC2 3, raceC2 4, raceC2 5]

/-- C2 witness fixture: a store mid-`startRacing`, about to run round 1. -/
def stateC2 : GameStoreState :=
  { gameState := GameState.racing, horses := [], schedule := some schC2,
    raceExecution :=
      { currentRace := some (raceC2 0), horsePositions := [],
        isAnimating := true, animationStartTime := some 0 },
    results := [], currentRoundIndex := 0 }

/-- C2 witness fixture: six rounds of external inputs. -/
def roundsC2 : List RoundInput :=
  List.replicate 6 { entries := [], startAt := 1, finishAt := 2 }

-- =============================================================================
-- CLAIM-SIDE DEFINITIONS AND ORDER INSTANCES FOR RANKING
-- =============================================================================

/-- The elapsed-time rule exactly as the ranking claim words it: finishTime
minus animationStartTime, with currentTime substituted when finishTime is
absent and 0 substituted when animationStartTime is absent.  This is the
claim's reading, to be compared against the source's `jsNumOr`-based rule. -/
def claimedTime (finishTime animationStartTime : Option ℚ)
    (currentTime : ℚ) : ℚ :=
  finishTime.getD currentTime - animationStartTime.getD 0

instance finishKeyLeTotal :
    IsTotal HorsePosition fun a b => finishKey a ≤ finishKey b :=
  ⟨fun a b => le_total (finishKey a) (finishKey b)⟩

instance finishKeyLeTrans :
    IsTrans HorsePosition fun a b => finishKey a ≤ finishKey b :=
  ⟨fun _ _ _ hab hbc => le_trans hab hbc⟩

-- =============================================================================
-- HELPER LEMMAS: jsMapIdx
-- =============================================================================

theorem jsMapIdxFrom_length (f : Nat → α → β) :
    ∀ (k : Nat) (l : List α), (jsMapIdxFrom f k l).length = l.length := by
  intro k l
  induction l generalizing k with
  | nil => rfl
  | cons a as ih => simp [jsMapIdxFrom, ih]

theorem jsMapIdx_length (f : Nat → α → β) (l : List α) :
    (jsMapIdx f l).length = l.length :=
  jsMapIdxFrom_length f 0 l

theorem jsMapIdxFrom_getElem? (f : Nat → α → β) :
    ∀ (k : Nat) (l : List α) (i : Nat),
      (jsMapIdxFrom f k l)[i]? = (l[i]?).map (f (k + i)) := by
  intro k l
  induction l generalizing k with
  | nil => intro i; rfl
  | cons a as ih =>
    intro i
    cases i with
    | zero => simp [jsMapIdxFrom]
    | succ i => simpa [jsMapIdxFrom, Nat.add_comm, Nat.add_left_comm] using ih (k + 1) i

theorem jsMapIdx_getElem? (f : Nat → α → β) (l : List α) (i : Nat) :
    (jsMapIdx f l)[i]? = (l[i]?).map (f i) := by
  simpa using jsMapIdxFrom_getElem? f 0 l i

theorem jsMapIdxFrom_map_of_invariant (f : Nat → α → α) (g : α → β)
    (hf : ∀ i a, g (f i a) = g a) :
    ∀ (k : Nat) (l : List α), (jsMapIdxFrom f k l).map g = l.map g := by
  intro k l
  induction l generalizing k with
  | nil => rfl
  | cons a as ih => simp [jsMapIdxFrom, hf, ih]

theorem jsMapIdx_map_of_invariant (f : Nat → α → α) (g : α → β)
    (hf : ∀ i a, g (f i a) = g a) (l : List α) :
    (jsMapIdx f l).map g = l.map g :=
  jsMapIdxFrom_map_of_invariant f g hf 0 l

-- =============================================================================
-- HELPER LEMMAS: calculateNewPosition unfolding
-- =============================================================================

theorem calculateNewPosition_of_some (hp : HorsePosition) (t : ℚ)
    (h : hp.finishTime = some t) (dt dm sv ct : ℚ) :
    calculateNewPosition hp dt dm sv ct = hp := by
  unfold calculateNewPosition
  rw [h]

theorem calculateNewPosition_of_none (hp : HorsePosition)
    (h : hp.finishTime = none) (dt dm sv ct : ℚ) :
    calculateNewPosition hp dt dm sv ct =
      { hp with
        position := min (hp.position + hp.speed * sv * (dt / (SPEED_DIVISOR * dm))) 100
        finishTime :=
          if hp.position < 100 ∧
              100 ≤ min (hp.position + hp.speed * sv * (dt / (SPEED_DIVISOR * dm))) 100
          then some ct else none } := by
  unfold calculateNewPosition
  rw [h]

/-- The per-frame movement amount is nonnegative on valid inputs. -/
theorem moveAmount_nonneg (speed sv dt dm : ℚ) (hspeed : 0 ≤ speed)
    (hsv : 0 ≤ sv) (hdt : 0 ≤ dt) (hdm : 0 < dm) :
    0 ≤ speed * sv * (dt / (SPEED_DIVISOR * dm)) := by
  have hdiv : 0 ≤ dt / (SPEED_DIVISOR * dm) := by
    apply div_nonneg hdt
    have : (0 : ℚ) < SPEED_DIVISOR * dm := by
      have : (0 : ℚ) < SPEED_DIVISOR := by norm_num [SPEED_DIVISOR]
      positivity
    linarith
  have := mul_nonneg hspeed hsv
  exact mul_nonneg this hdiv

-- =============================================================================
-- CLAIM C8: the speed formula
-- =============================================================================

/-- C8: `speed(c) = 0.5 + (c/100)*0.5` is linear and strictly increasing,
with `speed(0) = 0.5`, `speed(50) = 0.75`, `speed(100) = 1`; every condition
in `[0, 100]` yields a speed in `[0.5, 1]`, and condition 100 gives exactly
twice the speed of condition 0. -/
theorem calculateHorseSpeed_spec :
    (∀ c : ℚ, calculateHorseSpeed c = (1 / 200) * c + 1 / 2) ∧
    (∀ c d : ℚ, c < d → calculateHorseSpeed c < calculateHorseSpeed d) ∧
    calculateHorseSpeed 0 = 1 / 2 ∧
    calculateHorseSpeed 50 = 3 / 4 ∧
    calculateHorseSpeed 100 = 1 ∧
    (∀ c : ℚ, 0 ≤ c → c ≤ 100 →
      1 / 2 ≤ calculateHorseSpeed c ∧ calculateHorseSpeed c ≤ 1) ∧
    calculateHorseSpeed 100 = 2 * calculateHorseSpeed 0 := by
  refine ⟨fun c => ?_, fun c d h => ?_, by norm_num [calculateHorseSpeed],
    by norm_num [calculateHorseSpeed], by norm_num [calculateHorseSpeed],
    fun c h0 h1 => ⟨?_, ?_⟩, by norm_num [calculateHorseSpeed]⟩ <;>
    unfold calculateHorseSpeed
  · ring
  · nlinarith
  · nlinarith
  · nlinarith

/-- Witness for C8 at conditions 0, 50, 100. -/
theorem calculateHorseSpeed_spec_witness :
    ((0 : ℚ) < 100 ∧ calculateHorseSpeed 0 < calculateHorseSpeed 100) ∧
    ((0 : ℚ) ≤ 50 ∧ (50 : ℚ) ≤ 100 ∧
      1 / 2 ≤ calculateHorseSpeed 50 ∧ calculateHorseSpeed 50 ≤ 1) :=
  ⟨⟨by norm_num, calculateHorseSpeed_spec.2.1 0 100 (by norm_num)⟩,
   ⟨by norm_num, by norm_num,
    (calculateHorseSpeed_spec.2.2.2.2.2.1 50 (by norm_num) (by norm_num)).1,
    (calculateHorseSpeed_spec.2.2.2.2.2.1 50 (by norm_num) (by norm_num)).2⟩⟩

-- =============================================================================
-- CLAIM C4: state-machine guards
-- =============================================================================

/-- C4: `startRacing` outside SCHEDULE_READY and `pauseRacing` outside
RACING are no-ops that leave the whole store unchanged, and `resetGame`
from any state yields the initial state (IDLE, empty horses, null schedule,
empty results, round index 0, empty non-animating race execution). -/
theorem guards_spec :
    (∀ (now : ℚ) (s : GameStoreState),
      s.gameState ≠ GameState.scheduleReady → startRacing now s = s) ∧
    (∀ s : GameStoreState, s.gameState ≠ GameState.racing → pauseRacing s = s) ∧
    (∀ s : GameStoreState,
      resetGame s = initialState ∧
      (resetGame s).gameState = GameState.idle ∧
      (resetGame s).horses = [] ∧
      (resetGame s).schedule = none ∧
      (resetGame s).results = [] ∧
      (resetGame s).currentRoundIndex = 0 ∧
      (resetGame s).raceExecution = initialRaceExecution ∧
      (resetGame s).raceExecution.isAnimating = false ∧
      (resetGame s).raceExecution.horsePositions = [] ∧
      (resetGame s).raceExecution.currentRace = none) := by
  refine ⟨fun now s h => ?_, fun s h => ?_, fun s => ?_⟩
  · simp [startRacing, h]
  · simp [pauseRacing, h]
  · exact ⟨rfl, rfl, rfl, rfl, rfl, rfl, rfl, rfl, rfl, rfl⟩

/-- Witness for C4 on a PAUSED store. -/
theorem guards_spec_witness :
    ({ initialState with gameState := GameState.paused } : GameStoreState).gameState ≠
        GameState.scheduleReady ∧
    startRacing 0 { initialState with gameState := GameState.paused } =
      { initialState with gameState := GameState.paused } ∧
    ({ initialState with gameState := GameState.paused } : GameStoreState).gameState ≠
        GameState.racing ∧
    pauseRacing { initialState with gameState := GameState.paused } =
      { initialState with gameState := GameState.paused } ∧
    resetGame { initialState with gameState := GameState.paused } = initialState :=
  ⟨by decide,
   guards_spec.1 0 { initialState with gameState := GameState.paused } (by decide),
   by decide,
   guards_spec.2.1 { initialState with gameState := GameState.paused } (by decide),
   (guards_spec.2.2 { initialState with gameState := GameState.paused }).1⟩

-- =============================================================================
-- CLAIM C5: persistence round trip
-- =============================================================================

/-- C5: the persisted record carries exactly the five durable fields (it is
a function of gameState, horses, schedule, results and currentRoundIndex
only — `raceExecution` is excluded), and rehydration reproduces the record
except that RACING and PAUSED are normalized to SCHEDULE_READY while every
other game state is restored unchanged. -/
theorem persist_roundtrip_spec :
    (∀ s : GameStoreState,
      (persistedOfState s).gameState = s.gameState ∧
      (persistedOfState s).horses = s.horses ∧
      (persistedOfState s).schedule = s.schedule ∧
      (persistedOfState s).results = s.results ∧
      (persistedOfState s).currentRoundIndex = s.currentRoundIndex) ∧
    (∀ s t : GameStoreState,
      s.gameState = t.gameState → s.horses = t.horses →
      s.schedule = t.schedule → s.results = t.results →
      s.currentRoundIndex = t.currentRoundIndex →
      persistedOfState s = persistedOfState t) ∧
    (∀ s : GameStoreState,
      rehydrate (persistedOfState s) =
        { persistedOfState s with
          gameState :=
            if s.gameState = GameState.racing ∨ s.gameState = GameState.paused
            then GameState.scheduleReady else s.gameState }) := by
  refine ⟨fun s => ⟨rfl, rfl, rfl, rfl, rfl⟩,
    fun s t h1 h2 h3 h4 h5 => ?_, fun s => ?_⟩
  · simp [persistedOfState, h1, h2, h3, h4, h5]
  · by_cases h : s.gameState = GameState.racing ∨ s.gameState = GameState.paused
    · simp [rehydrate, persistedOfState, h]
    · simp [rehydrate, persistedOfState, h]

/-- Witness for C5: two stores differing only in `raceExecution` persist to
the same record, and a RACING store rehydrates to SCHEDULE_READY. -/
theorem persist_roundtrip_spec_witness :
    persistedOfState { initialState with gameState := GameState.racing } =
      persistedOfState
        { initialState with
          gameState := GameState.racing
          raceExecution := { initialRaceExecution with isAnimating := true } } ∧
    rehydrate (persistedOfState { initialState with gameState := GameState.racing }) =
      { persistedOfState { initialState with gameState := GameState.racing } with
        gameState :=
          if ({ initialState with gameState := GameState.racing } :
                GameStoreState).gameState = GameState.racing ∨
              ({ initialState with gameState := GameState.racing } :
                GameStoreState).gameState = GameState.paused
          then GameState.scheduleReady
          else ({ initialState with gameState := GameState.racing } :
            GameStoreState).gameState } :=
  ⟨persist_roundtrip_spec.2.1 { initialState with gameState := GameState.racing }
      { initialState with
        gameState := GameState.racing
        raceExecution := { initialRaceExecution with isAnimating := true } }
      rfl rfl rfl rfl rfl,
   persist_roundtrip_spec.2.2 { initialState with gameState := GameState.racing }⟩

-- =============================================================================
-- CLAIM C1: single physics update
-- =============================================================================

/-- C1: on valid inputs one `calculateNewPosition` call never decreases the
position, never yields a position above 100, returns the state completely
unchanged when `finishTime` is already set, sets `finishTime` to the
supplied `currentTime` exactly on the call where the position crosses from
below 100 to at least 100 (and leaves it unset otherwise), and passes the
horse id, lane and speed through unchanged. -/
theorem update_spec (hp : HorsePosition) (dt dm sv ct : ℚ)
    (hpos0 : 0 ≤ hp.position) (hpos1 : hp.position ≤ 100)
    (hdt : 0 ≤ dt) (hdm : 0 < dm)
    (hsv0 : (4 / 5 : ℚ) ≤ sv) (hsv1 : sv ≤ (6 / 5 : ℚ))
    (hspeed : 0 ≤ hp.speed) :
    hp.position ≤ (calculateNewPosition hp dt dm sv ct).position ∧
    (calculateNewPosition hp dt dm sv ct).position ≤ 100 ∧
    (∀ t, hp.finishTime = some t → calculateNewPosition hp dt dm sv ct = hp) ∧
    (hp.finishTime = none →
      (calculateNewPosition hp dt dm sv ct).finishTime =
        (if hp.position < 100 ∧ 100 ≤ (calculateNewPosition hp dt dm sv ct).position
         then some ct else none)) ∧
    (calculateNewPosition hp dt dm sv ct).horseId = hp.horseId ∧
    (calculateNewPosition hp dt dm sv ct).lane = hp.lane ∧
    (calculateNewPosition hp dt dm sv ct).speed = hp.speed := by
  cases hft : hp.finishTime with
  | some t =>
    rw [calculateNewPosition_of_some hp t hft]
    exact ⟨le_refl _, hpos1, fun _ _ => rfl, fun h => Option.noConfusion h,
      rfl, rfl, rfl⟩
  | none =>
    rw [calculateNewPosition_of_none hp hft]
    have hm0 : 0 ≤ hp.speed * sv * (dt / (SPEED_DIVISOR * dm)) :=
      moveAmount_nonneg hp.speed sv dt dm hspeed (by linarith) hdt hdm
    exact ⟨le_min (by linarith) hpos1, min_le_right _ _,
      fun t h => Option.noConfusion h, fun _ => rfl, rfl, rfl, rfl⟩

/-- Witness for C1: `hpC1` at `deltaTime = 16`, `distanceMultiplier = 1`,
`speedVariation = 1`, `currentTime = 5000`. -/
theorem update_spec_witness :
    (0 ≤ hpC1.position ∧ hpC1.position ≤ 100 ∧ (0 : ℚ) ≤ 16 ∧ (0 : ℚ) < 1 ∧
      (4 / 5 : ℚ) ≤ 1 ∧ (1 : ℚ) ≤ 6 / 5 ∧ 0 ≤ hpC1.speed) ∧
    (hpC1.position ≤ (calculateNewPosition hpC1 16 1 1 5000).position ∧
      (calculateNewPosition hpC1 16 1 1 5000).position ≤ 100 ∧
      (∀ t, hpC1.finishTime = some t → calculateNewPosition hpC1 16 1 1 5000 = hpC1) ∧
      (hpC1.finishTime = none →
        (calculateNewPosition hpC1 16 1 1 5000).finishTime =
          (if hpC1.position < 100 ∧
              100 ≤ (calculateNewPosition hpC1 16 1 1 5000).position
           then some 5000 else none)) ∧
      (calculateNewPosition hpC1 16 1 1 5000).horseId = hpC1.horseId ∧
      (calculateNewPosition hpC1 16 1 1 5000).lane = hpC1.lane ∧
      (calculateNewPosition hpC1 16 1 1 5000).speed = hpC1.speed) :=
  ⟨⟨by norm_num [hpC1], by norm_num [hpC1], by norm_num, by norm_num,
    by norm_num, by norm_num, by norm_num [hpC1]⟩,
   update_spec hpC1 16 1 1 5000 (by norm_num [hpC1]) (by norm_num [hpC1])
     (by norm_num) (by norm_num) (by norm_num) (by norm_num) (by norm_num [hpC1])⟩

-- =============================================================================
-- CLAIM C10: an unfinished horse at/above 100 is stuck
-- =============================================================================

/-- One valid update of an unfinished participant already at or above 100
clamps the position to exactly 100 and leaves `finishTime` unset (the
finish test requires the incoming position to be strictly below 100). -/
theorem calc_stuck_step (hp : HorsePosition) (dt dm sv ct : ℚ)
    (hft : hp.finishTime = none) (hpos : 100 ≤ hp.position)
    (hspeed : 0 ≤ hp.speed) (hdt : 0 ≤ dt) (hdm : 0 < dm) (hsv : 0 ≤ sv) :
    (calculateNewPosition hp dt dm sv ct).position = 100 ∧
    (calculateNewPosition hp dt dm sv ct).finishTime = none ∧
    (calculateNewPosition hp dt dm sv ct).speed = hp.speed := by
  rw [calculateNewPosition_of_none hp hft]
  have hm0 : 0 ≤ hp.speed * sv * (dt / (SPEED_DIVISOR * dm)) :=
    moveAmount_nonneg hp.speed sv dt dm hspeed hsv hdt hdm
  refine ⟨min_eq_right (by linarith), ?_, rfl⟩
  have hnc : ¬(hp.position < 100 ∧
      100 ≤ min (hp.position + hp.speed * sv * (dt / (SPEED_DIVISOR * dm))) 100) :=
    fun h => absurd h.1 (not_lt.2 hpos)
  exact if_neg hnc

/-- The stuck configuration (`finishTime` unset, position at least 100) is
preserved by any sequence of valid updates. -/
theorem applyUpdates_stuck (ps : List UpdateParams) (hp : HorsePosition)
    (hft : hp.finishTime = none) (hpos : 100 ≤ hp.position) (hspeed : 0 ≤ hp.speed)
    (hps : ∀ p ∈ ps, 0 ≤ p.deltaTime ∧ 0 < p.distanceMultiplier ∧
      0 ≤ p.speedVariation) :
    (applyUpdates hp ps).finishTime = none ∧ 100 ≤ (applyUpdates hp ps).position := by
  induction ps generalizing hp with
  | nil => exact ⟨hft, hpos⟩
  | cons p ps ih =>
    have hv := hps p (List.mem_cons_self p ps)
    have step := calc_stuck_step hp p.deltaTime p.distanceMultiplier
      p.speedVariation p.currentTime hft hpos hspeed hv.1 hv.2.1 hv.2.2
    have hfold : applyUpdates hp (p :: ps) =
        applyUpdates (calculateNewPosition hp p.deltaTime p.distanceMultiplier
          p.speedVariation p.currentTime) ps := rfl
    rw [hfold]
    have hpos' : 100 ≤ (calculateNewPosition hp p.deltaTime p.distanceMultiplier
        p.speedVariation p.currentTime).position := by rw [step.1]
    have hspeed' : 0 ≤ (calculateNewPosition hp p.deltaTime p.distanceMultiplier
        p.speedVariation p.currentTime).speed := by rw [step.2.2]; exact hspeed
    exact ih _ step.2.1 hpos' hspeed' fun q hq => hps q (List.mem_cons_of_mem p hq)

/-- C10: an unfinished participant whose position is already at or above
100 is returned with position exactly 100 and `finishTime` still unset by
every valid update; the property survives any sequence of valid updates,
so a list containing such a participant never satisfies
`checkAllFinished`. -/
theorem stuck_spec (hp : HorsePosition) (ps : List UpdateParams)
    (hft : hp.finishTime = none) (hpos : 100 ≤ hp.position) (hspeed : 0 ≤ hp.speed)
    (hps : ∀ p ∈ ps, 0 ≤ p.deltaTime ∧ 0 < p.distanceMultiplier ∧
      0 ≤ p.speedVariation) :
    (∀ dt dm sv ct : ℚ, 0 ≤ dt → 0 < dm → 0 ≤ sv →
      (calculateNewPosition hp dt dm sv ct).position = 100 ∧
      (calculateNewPosition hp dt dm sv ct).finishTime = none) ∧
    (applyUpdates hp ps).finishTime = none ∧
    (∀ l : List HorsePosition, applyUpdates hp ps ∈ l →
      checkAllFinished l = false) := by
  have main := applyUpdates_stuck ps hp hft hpos hspeed hps
  refine ⟨fun dt dm sv ct hdt hdm hsv => ?_, main.1, fun l hl => ?_⟩
  · have := calc_stuck_step hp dt dm sv ct hft hpos hspeed hdt hdm hsv
    exact ⟨this.1, this.2.1⟩
  · rw [Bool.eq_false_iff]
    intro hall
    have := List.all_eq_true.1 hall _ hl
    rw [main.1] at this
    simp at this

/-- Witness for C10: the stuck horse after one frame, inside a singleton
list. -/
theorem stuck_spec_witness :
    (hpC10.finishTime = none ∧ 100 ≤ hpC10.position ∧ 0 ≤ hpC10.speed ∧
      (∀ p ∈ psC10, 0 ≤ p.deltaTime ∧ 0 < p.distanceMultiplier ∧
        0 ≤ p.speedVariation)) ∧
    ((∀ dt dm sv ct : ℚ, 0 ≤ dt → 0 < dm → 0 ≤ sv →
      (calculateNewPosition hpC10 dt dm sv ct).position = 100 ∧
      (calculateNewPosition hpC10 dt dm sv ct).finishTime = none) ∧
    (applyUpdates hpC10 psC10).finishTime = none ∧
    (∀ l : List HorsePosition, applyUpdates hpC10 psC10 ∈ l →
      checkAllFinished l = false)) :=
  ⟨⟨rfl, by norm_num [hpC10], by norm_num [hpC10],
    by intro p hp; simp only [psC10, List.mem_singleton] at hp; subst hp
       refine ⟨by norm_num, by norm_num, by norm_num⟩⟩,
   stuck_spec hpC10 psC10 rfl (by norm_num [hpC10]) (by norm_num [hpC10])
     (by intro p hp; simp only [psC10, List.mem_singleton] at hp; subst hp
         refine ⟨by norm_num, by norm_num, by norm_num⟩)⟩

-- =============================================================================
-- HELPER LEMMAS: swaps and the Fisher–Yates loop are permutations
-- =============================================================================

theorem cons_set_perm (a x : α) :
    ∀ (l : List α) (k : Nat), l[k]? = some a → List.Perm (a :: l.set k x) (x :: l) := by
  intro l
  induction l with
  | nil => intro k hk; simp at hk
  | cons y t ih =>
    intro k hk
    cases k with
    | zero =>
      simp at hk
      subst hk
      simpa using List.Perm.swap x y t
    | succ k =>
      simp at hk
      have e1 : a :: (y :: t).set (k + 1) x = a :: y :: t.set k x := by simp
      rw [e1]
      exact ((List.Perm.swap y a _).trans (List.Perm.cons y (ih k hk))).trans
        (List.Perm.swap x y t)

theorem set_set_perm :
    ∀ (l : List α) (i j : Nat) (a b : α),
      l[i]? = some a → l[j]? = some b → List.Perm ((l.set i b).set j a) l := by
  intro l
  induction l with
  | nil => intro i j a b hi _; simp at hi
  | cons x t ih =>
    intro i j a b hi hj
    cases i with
    | zero =>
      simp at hi
      subst hi
      cases j with
      | zero => simp at hj; subst hj; simp
      | succ j =>
        simp at hj
        simpa using cons_set_perm b x t j hj
    | succ i =>
      simp at hi
      cases j with
      | zero =>
        simp at hj
        subst hj
        simpa using cons_set_perm a x t i hi
      | succ j =>
        simp at hj
        simpa using List.Perm.cons x (ih i j a b hi hj)

theorem listSwap_perm (l : List α) (i j : Nat) : List.Perm (listSwap l i j) l := by
  unfold listSwap
  split
  · next a b hi hj => exact set_set_perm l i j a b hi hj
  · exact List.Perm.refl l

theorem fyLoop_perm (rand : Nat → ℚ) :
    ∀ (n : Nat) (l : List α), List.Perm (fyLoop rand n l) l := by
  intro n
  induction n with
  | zero => intro l; exact List.Perm.refl l
  | succ n ih =>
    intro l
    exact (ih _).trans (listSwap_perm l _ _)

theorem shuffleArray_perm (rand : Nat → ℚ) (l : List α) :
    List.Perm (shuffleArray rand l) l :=
  fyLoop_perm rand (l.length - 1) l

/-- The selection of a race's participants: exactly 10 ids, pairwise
distinct, all drawn from the roster — for any 20-horse roster with unique
ids and any random oracle. -/
theorem selectRandomHorses_spec (rand : Nat → ℚ) (horses : List Horse)
    (hlen : horses.length = 20) (hids : (horses.map Horse.id).Nodup) :
    (selectRandomHorses rand horses).length = 10 ∧
    (selectRandomHorses rand horses).Nodup ∧
    ∀ id ∈ selectRandomHorses rand horses, id ∈ horses.map Horse.id := by
  have hperm : List.Perm (shuffleArray rand horses) horses := shuffleArray_perm rand horses
  have hplen : (shuffleArray rand horses).length = 20 := hperm.length_eq.trans hlen
  have hmapperm : List.Perm ((shuffleArray rand horses).map Horse.id) (horses.map Horse.id) :=
    hperm.map Horse.id
  refine ⟨?_, ?_, ?_⟩
  · simp [selectRandomHorses, hplen]
  · have h1 : ((shuffleArray rand horses).map Horse.id).Nodup :=
      (hmapperm.nodup_iff).2 hids
    have h2 : (selectRandomHorses rand horses).Sublist
        ((shuffleArray rand horses).map Horse.id) :=
      (List.take_sublist 10 _).map Horse.id
    exact h1.sublist h2
  · intro id hid
    exact hmapperm.mem_iff.1
      (((List.take_sublist 10 (shuffleArray rand horses)).map Horse.id).subset hid)

-- =============================================================================
-- CLAIM C6: the schedule builder
-- =============================================================================

/-- C6: for any 20-horse roster with unique ids and any random oracle,
`createRaceSchedule` yields exactly 6 races carrying the distances
1200…2200 in that fixed order with round numbers 1 through 6, each race
holding exactly 10 pairwise-distinct participant ids drawn from the
roster, with pending status and no timestamps. -/
theorem schedule_spec (rand : Nat → Nat → ℚ) (horses : List Horse)
    (hlen : horses.length = 20) (hids : (horses.map Horse.id).Nodup) :
    (createRaceSchedule rand horses).length = 6 ∧
    (createRaceSchedule rand horses).map Race.distance =
      [1200, 1400, 1600, 1800, 2000, 2200] ∧
    (createRaceSchedule rand horses).map Race.roundNumber = [1, 2, 3, 4, 5, 6] ∧
    ∀ race ∈ createRaceSchedule rand horses,
      race.status = RaceStatus.pending ∧ race.startTime = none ∧
      race.endTime = none ∧ race.horseIds.length = 10 ∧ race.horseIds.Nodup ∧
      ∀ id ∈ race.horseIds, id ∈ horses.map Horse.id := by
  have hsel := fun i => selectRandomHorses_spec (rand i) horses hlen hids
  refine ⟨rfl, rfl, rfl, ?_⟩
  intro race hrace
  simp only [createRaceSchedule, ROUND_DISTANCES, jsMapIdx, jsMapIdxFrom,
    List.mem_cons, List.not_mem_nil, or_false] at hrace
  rcases hrace with rfl | rfl | rfl | rfl | rfl | rfl <;>
    exact ⟨rfl, rfl, rfl, (hsel _).1, (hsel _).2.1, (hsel _).2.2⟩

/-- Witness for C6: the schedule built over `rosterC6` with the constant
zero oracle. -/
theorem schedule_spec_witness :
    (rosterC6.length = 20 ∧ (rosterC6.map Horse.id).Nodup) ∧
    ((createRaceSchedule (fun _ _ => 0) rosterC6).length = 6 ∧
      (createRaceSchedule (fun _ _ => 0) rosterC6).map Race.distance =
        [1200, 1400, 1600, 1800, 2000, 2200] ∧
      (createRaceSchedule (fun _ _ => 0) rosterC6).map Race.roundNumber =
        [1, 2, 3, 4, 5, 6] ∧
      ∀ race ∈ createRaceSchedule (fun _ _ => 0) rosterC6,
        race.status = RaceStatus.pending ∧ race.startTime = none ∧
        race.endTime = none ∧ race.horseIds.length = 10 ∧ race.horseIds.Nodup ∧
        ∀ id ∈ race.horseIds, id ∈ rosterC6.map Horse.id) :=
  ⟨⟨by decide, by decide⟩,
   schedule_spec (fun _ _ => 0) rosterC6 (by decide) (by decide)⟩

-- =============================================================================
-- CLAIM C7: the roster generator
-- =============================================================================

theorem jsMapIdxFrom_mem {x : β} {f : Nat → α → β} :
    ∀ {k : Nat} {l : List α}, x ∈ jsMapIdxFrom f k l →
      ∃ i, ∃ hi : i < l.length, x = f (k + i) (l.get ⟨i, hi⟩) := by
  intro k l
  induction l generalizing k with
  | nil => intro h; simp [jsMapIdxFrom] at h
  | cons a as ih =>
    intro h
    rcases List.mem_cons.1 h with h | h
    · exact ⟨0, by simp, by simpa using h⟩
    · rcases ih h with ⟨i, hi, hx⟩
      exact ⟨i + 1, by simpa using hi, by
        simpa [Nat.add_comm, Nat.add_left_comm, Nat.add_assoc] using hx⟩

theorem jsMapIdx_mem {x : β} {f : Nat → α → β} {l : List α}
    (h : x ∈ jsMapIdx f l) :
    ∃ i, ∃ hi : i < l.length, x = f i (l.get ⟨i, hi⟩) := by
  rcases jsMapIdxFrom_mem h with ⟨i, hi, hx⟩
  exact ⟨i, hi, by simpa using hx⟩

/-- `randomInt(1, 100)` lands in `[1, 100]` whenever the random draw is in
`[0, 1)`. -/
theorem randomInt_bounds (q : ℚ) (h0 : 0 ≤ q) (h1 : q < 1) :
    1 ≤ randomInt q 1 100 ∧ randomInt q 1 100 ≤ 100 := by
  unfold randomInt
  norm_num
  constructor
  · have : (0 : ℤ) ≤ ⌊q * 100⌋ := Int.floor_nonneg.2 (by positivity)
    omega
  · have hlt : q * 100 < ((100 : ℤ) : ℚ) := by push_cast; nlinarith
    have : (⌊q * 100⌋ : ℤ) < 100 := Int.floor_lt.2 hlt
    omega

/-- The generated roster's colors are exactly the shuffled palette, read
off by position. -/
theorem generateHorses_map_color (cs : List String) (condRand : Nat → ℚ)
    (h : cs.length = 20) :
    (generateHorses cs condRand).map Horse.color = cs := by
  rcases cs with _ | ⟨a0, _ | ⟨a1, _ | ⟨a2, _ | ⟨a3, _ | ⟨a4, _ | ⟨a5, _ |
    ⟨a6, _ | ⟨a7, _ | ⟨a8, _ | ⟨a9, _ | ⟨a10, _ | ⟨a11, _ | ⟨a12, _ | ⟨a13,
    _ | ⟨a14, _ | ⟨a15, _ | ⟨a16, _ | ⟨a17, _ | ⟨a18, _ | ⟨a19,
    t⟩⟩⟩⟩⟩⟩⟩⟩⟩⟩⟩⟩⟩⟩⟩⟩⟩⟩⟩⟩ <;> simp only [List.length_cons, List.length_nil] at h <;>
    try omega
  have ht : t = [] := by
    have : t.length = 0 := by omega
    exact List.length_eq_zero.1 this
  subst ht
  rfl

/-- C7: `generateHorses` always yields exactly 20 horses with
pairwise-distinct ids and pairwise-distinct colors — one color per horse,
assigned by position from the shuffled fixed palette of exactly 20 distinct
colors — and an integer condition in `[1, 100]` for each horse, for any
permutation of the palette and any `Math.random` draws in `[0, 1)`. -/
theorem roster_spec (cs : List String) (condRand : Nat → ℚ)
    (hcs : List.Perm cs HORSE_COLORS) (hrand : ∀ i, 0 ≤ condRand i ∧ condRand i < 1) :
    HORSE_COLORS.length = 20 ∧ HORSE_COLORS.Nodup ∧
    (generateHorses cs condRand).length = 20 ∧
    ((generateHorses cs condRand).map Horse.id).Nodup ∧
    (generateHorses cs condRand).map Horse.color = cs ∧
    ((generateHorses cs condRand).map Horse.color).Nodup ∧
    ∀ h ∈ generateHorses cs condRand, 1 ≤ h.condition ∧ h.condition ≤ 100 := by
  have hlen : cs.length = 20 := hcs.length_eq
  have hcolor := generateHorses_map_color cs condRand hlen
  have hid : (generateHorses cs condRand).map Horse.id =
      ["horse_1", "horse_2", "horse_3", "horse_4", "horse_5", "horse_6",
       "horse_7", "horse_8", "horse_9", "horse_10", "horse_11", "horse_12",
       "horse_13", "horse_14", "horse_15", "horse_16", "horse_17", "horse_18",
       "horse_19", "horse_20"] := rfl
  refine ⟨rfl, by decide, ?_, ?_, hcolor, ?_, ?_⟩
  · have := congrArg List.length hcolor
    simpa [hlen] using this
  · rw [hid]; decide
  · rw [hcolor]
    exact hcs.nodup_iff.2 (by decide)
  · intro h hmem
    rcases jsMapIdx_mem hmem with ⟨i, hi, rfl⟩
    exact randomInt_bounds (condRand i) (hrand i).1 (hrand i).2

/-- Witness for C7: the identity permutation of the palette and the
constant draw 1/2. -/
theorem roster_spec_witness :
    (List.Perm HORSE_COLORS HORSE_COLORS ∧
      (∀ i : Nat, 0 ≤ (fun _ : Nat => (1 / 2 : ℚ)) i ∧
        (fun _ : Nat => (1 / 2 : ℚ)) i < 1)) ∧
    (HORSE_COLORS.length = 20 ∧ HORSE_COLORS.Nodup ∧
      (generateHorses HORSE_COLORS fun _ => (1 / 2 : ℚ)).length = 20 ∧
      ((generateHorses HORSE_COLORS fun _ => (1 / 2 : ℚ)).map Horse.id).Nodup ∧
      (generateHorses HORSE_COLORS fun _ => (1 / 2 : ℚ)).map Horse.color =
        HORSE_COLORS ∧
      ((generateHorses HORSE_COLORS fun _ => (1 / 2 : ℚ)).map Horse.color).Nodup ∧
      ∀ h ∈ generateHorses HORSE_COLORS fun _ => (1 / 2 : ℚ),
        1 ≤ h.condition ∧ h.condition ≤ 100) :=
  ⟨⟨List.Perm.refl HORSE_COLORS, fun _ => ⟨by norm_num, by norm_num⟩⟩,
   roster_spec HORSE_COLORS (fun _ => (1 / 2 : ℚ)) (List.Perm.refl HORSE_COLORS)
     fun _ => ⟨by norm_num, by norm_num⟩⟩

-- =============================================================================
-- CLAIM C2: completing races
-- =============================================================================

/-- Round numbers survive any schedule rewrite that only touches status and
timestamps. -/
theorem jsMapIdx_rn (g : Nat → Race → Race)
    (hg : ∀ i r, (g i r).roundNumber = r.roundNumber) (sch : List Race) :
    (jsMapIdx g sch).map Race.roundNumber = sch.map Race.roundNumber :=
  jsMapIdx_map_of_invariant g Race.roundNumber hg sch

/-- Unfolding of `startNextRace` when a schedule exists, the game is
RACING and the round index is in range. -/
theorem startNextRace_run (now : ℚ) (s : GameStoreState) (sch : List Race)
    (hsch : s.schedule = some sch) (hgs : s.gameState = GameState.racing)
    (hidx : s.currentRoundIndex < sch.length) :
    startNextRace now s =
      { s with
        schedule := some (jsMapIdx
          (fun index race =>
            if index = s.currentRoundIndex then
              { race with status := RaceStatus.running, startTime := some now }
            else race) sch)
        raceExecution :=
          { currentRace :=
              some { sch.get ⟨s.currentRoundIndex, hidx⟩ with
                     status := RaceStatus.running }
            horsePositions :=
              initHorsePositions (sch.get ⟨s.currentRoundIndex, hidx⟩).horseIds
                s.horses
            isAnimating := true
            animationStartTime := some now } } := by
  unfold startNextRace
  rw [hsch]
  simp only [hgs, ne_eq, not_true_eq_false, if_false, Nat.not_le.2 hidx,
    dif_neg (Nat.not_le.2 hidx)]
  rw [dif_neg not_false]

/-- Unfolding of `completeCurrentRace` when a schedule and a current race
exist and the round index is in range. -/
theorem completeCurrentRace_run (entries : List RaceResultEntry) (now : ℚ)
    (s : GameStoreState) (sch : List Race) (cr race : Race)
    (hsch : s.schedule = some sch)
    (hcr : s.raceExecution.currentRace = some cr)
    (hrace : sch[s.currentRoundIndex]? = some race) :
    completeCurrentRace entries now s = some
      { s with
        schedule := some (jsMapIdx
          (fun index r =>
            if index = s.currentRoundIndex then
              { r with status := RaceStatus.completed, endTime := some now }
            else r) sch)
        results := s.results ++
          [{ roundNumber := race.roundNumber
             distance := race.distance
             results := entries.insertionSort fun a b => a.position ≤ b.position
             completedAt := now }]
        currentRoundIndex := s.currentRoundIndex + 1
        raceExecution := initialRaceExecution
        gameState :=
          if sch.length ≤ s.currentRoundIndex + 1 then GameState.completed
          else GameState.racing } := by
  simp only [completeCurrentRace, hsch, hcr, hrace]

/-- One full cycle (`startNextRace` then `completeCurrentRace`) on a
RACING store with a pending in-range round: the round's number is appended
to the results, the index advances by one, and the store is COMPLETED
exactly when the schedule is exhausted. -/
theorem raceCycle_step (c : RoundInput) (s : GameStoreState) (sch : List Race)
    (hgs : s.gameState = GameState.racing) (hsch : s.schedule = some sch)
    (hidx : s.currentRoundIndex < sch.length) :
    ∃ s2 sch2,
      raceCycle c s = some s2 ∧
      s2.gameState = (if sch.length ≤ s.currentRoundIndex + 1 then
        GameState.completed else GameState.racing) ∧
      s2.schedule = some sch2 ∧
      sch2.map Race.roundNumber = sch.map Race.roundNumber ∧
      sch2.length = sch.length ∧
      s2.currentRoundIndex = s.currentRoundIndex + 1 ∧
      s2.results.map RaceResult.roundNumber =
        s.results.map RaceResult.roundNumber ++
          [(sch.get ⟨s.currentRoundIndex, hidx⟩).roundNumber] := by
  have h1 := startNextRace_run c.startAt s sch hsch hgs hidx
  have hs1sch : (startNextRace c.startAt s).schedule = some (jsMapIdx
      (fun index race =>
        if index = s.currentRoundIndex then
          { race with status := RaceStatus.running, startTime := some c.startAt }
        else race) sch) := by rw [h1]
  have hs1cr : (startNextRace c.startAt s).raceExecution.currentRace =
      some { sch.get ⟨s.currentRoundIndex, hidx⟩ with
             status := RaceStatus.running } := by rw [h1]
  have hs1idx : (startNextRace c.startAt s).currentRoundIndex =
      s.currentRoundIndex := by rw [h1]
  have hs1res : (startNextRace c.startAt s).results = s.results := by rw [h1]
  have hsch1rn : (jsMapIdx
      (fun index race =>
        if index = s.currentRoundIndex then
          { race with status := RaceStatus.running, startTime := some c.startAt }
        else race) sch).map Race.roundNumber = sch.map Race.roundNumber :=
    jsMapIdx_rn _ (fun i r => by by_cases h : i = s.currentRoundIndex <;>
      simp [h]) sch
  have hsch1len : (jsMapIdx
      (fun index race =>
        if index = s.currentRoundIndex then
          { race with status := RaceStatus.running, startTime := some c.startAt }
        else race) sch).length = sch.length := jsMapIdx_length _ sch
  have hidx1 : (startNextRace c.startAt s).currentRoundIndex < (jsMapIdx
      (fun index race =>
        if index = s.currentRoundIndex then
          { race with status := RaceStatus.running, startTime := some c.startAt }
        else race) sch).length := by rw [hs1idx, hsch1len]; exact hidx
  have hrace1 : (jsMapIdx
      (fun index race =>
        if index = s.currentRoundIndex then
          { race with status := RaceStatus.running, startTime := some c.startAt }
        else race) sch)[(startNextRace c.startAt s).currentRoundIndex]? =
      some { sch.get ⟨s.currentRoundIndex, hidx⟩ with
             status := RaceStatus.running, startTime := some c.startAt } := by
    rw [hs1idx, jsMapIdx_getElem?, List.getElem?_eq_getElem hidx]
    simp [List.get_eq_getElem]
  have h2 := completeCurrentRace_run c.entries c.finishAt
    (startNextRace c.startAt s) _ _ _ hs1sch hs1cr hrace1
  refine ⟨_, jsMapIdx
      (fun index r =>
        if index = (startNextRace c.startAt s).currentRoundIndex then
          { r with status := RaceStatus.completed, endTime := some c.finishAt }
        else r)
      (jsMapIdx
        (fun index race =>
          if index = s.currentRoundIndex then
            { race with status := RaceStatus.running, startTime := some c.startAt }
          else race) sch), h2, ?_, rfl, ?_, ?_, ?_, ?_⟩
  · show (if (jsMapIdx
        (fun index race =>
          if index = s.currentRoundIndex then
            { race with status := RaceStatus.running, startTime := some c.startAt }
          else race) sch).length ≤
          (startNextRace c.startAt s).currentRoundIndex + 1 then
        GameState.completed else GameState.racing) = _
    rw [hsch1len, hs1idx]
  · exact (jsMapIdx_rn _ (fun i r => by
      by_cases h : i = (startNextRace c.startAt s).currentRoundIndex <;>
        simp [h]) _).trans hsch1rn
  · rw [jsMapIdx_length]; exact hsch1len
  · show (startNextRace c.startAt s).currentRoundIndex + 1 =
      s.currentRoundIndex + 1
    rw [hs1idx]
  · show ((startNextRace c.startAt s).results ++ [_]).map
      RaceResult.roundNumber = _
    rw [hs1res]
    simp

/-- Driving the remaining rounds to the end: the run appends exactly the
round numbers of the not-yet-run schedule suffix, in order, and ends
COMPLETED (when at least one round remains). -/
theorem runRounds_completes :
    ∀ (rounds : List RoundInput) (s : GameStoreState) (sch : List Race),
      s.gameState = GameState.racing → s.schedule = some sch →
      s.currentRoundIndex + rounds.length = sch.length →
      ∃ s', runRounds rounds s = some s' ∧
        s'.results.map RaceResult.roundNumber =
          s.results.map RaceResult.roundNumber ++
            (sch.drop s.currentRoundIndex).map Race.roundNumber ∧
        s'.gameState =
          (if rounds.isEmpty then GameState.racing else GameState.completed) := by
  intro rounds
  induction rounds with
  | nil =>
    intro s sch hgs hsch hlen
    simp only [List.length_nil, Nat.add_zero] at hlen
    refine ⟨s, rfl, ?_, by simp [hgs]⟩
    have hdrop : sch.drop s.currentRoundIndex = [] :=
      List.drop_eq_nil_of_le (by omega)
    simp [hdrop]
  | cons c rest ih =>
    intro s sch hgs hsch hlen
    have hidx : s.currentRoundIndex < sch.length := by
      simp only [List.length_cons] at hlen
      omega
    rcases raceCycle_step c s sch hgs hsch hidx with
      ⟨s2, sch2, hcycle, hgs2, hsch2, hrn2, hlen2, hidx2, hres2⟩
    have hdrop : (sch.drop s.currentRoundIndex).map Race.roundNumber =
        (sch.get ⟨s.currentRoundIndex, hidx⟩).roundNumber ::
          (sch.drop (s.currentRoundIndex + 1)).map Race.roundNumber := by
      rw [List.drop_eq_getElem_cons hidx]
      simp only [List.map_cons, List.get_eq_getElem]
    rcases rest with _ | ⟨c', rest'⟩
    · -- this was the last round
      have hlast : sch.length ≤ s.currentRoundIndex + 1 := by
        simp only [List.length_cons, List.length_nil] at hlen
        omega
      have hgsc : s2.gameState = GameState.completed := by
        rw [hgs2, if_pos hlast]
      refine ⟨s2, ?_, ?_, by simp [hgsc]⟩
      · show (raceCycle c s).bind (runRounds []) = some s2
        rw [hcycle]
        rfl
      · rw [hres2, hdrop]
        have : sch.drop (s.currentRoundIndex + 1) = [] :=
          List.drop_eq_nil_of_le (by omega)
        simp [this]
    · -- more rounds remain
      have hmore : s.currentRoundIndex + 1 < sch.length := by
        simp only [List.length_cons] at hlen
        omega
      have hgsr : s2.gameState = GameState.racing := by
        rw [hgs2, if_neg (Nat.not_le.2 hmore)]
      have hlen2' : s2.currentRoundIndex + (c' :: rest').length = sch2.length := by
        rw [hidx2, hlen2]
        simp only [List.length_cons] at hlen ⊢
        omega
      rcases ih s2 sch2 hgsr hsch2 hlen2' with ⟨s3, hrun3, hres3, hgs3⟩
      refine ⟨s3, ?_, ?_, by simpa using hgs3⟩
      · show (raceCycle c s).bind (runRounds (c' :: rest')) = some s3
        rw [hcycle]
        exact hrun3
      · rw [hres3, hres2, hidx2, hdrop]
        have hdropmap : (sch2.drop (s.currentRoundIndex + 1)).map Race.roundNumber =
            (sch.drop (s.currentRoundIndex + 1)).map Race.roundNumber := by
          rw [List.map_drop, hrn2, ← List.map_drop]
        rw [hdropmap]
        simp

/-- C2: a `completeCurrentRace` call that finds a schedule and a current
race appends exactly one result record carrying the pending round's number
and distance, advances the round index by exactly one, and lands in
COMPLETED exactly when the incremented index reaches the schedule length
(RACING otherwise); and a full sequential run of a six-race schedule ends
COMPLETED with the six round numbers 1…6 recorded in order. -/
theorem complete_spec :
    (∀ (entries : List RaceResultEntry) (now : ℚ) (s : GameStoreState)
        (sch : List Race) (cr race : Race),
      s.schedule = some sch → s.raceExecution.currentRace = some cr →
      sch[s.currentRoundIndex]? = some race →
      ∃ s', completeCurrentRace entries now s = some s' ∧
        s'.results = s.results ++
          [{ roundNumber := race.roundNumber
             distance := race.distance
             results := entries.insertionSort fun a b => a.position ≤ b.position
             completedAt := now }] ∧
        s'.currentRoundIndex = s.currentRoundIndex + 1 ∧
        (s'.gameState = GameState.completed ↔
          sch.length ≤ s.currentRoundIndex + 1) ∧
        (s'.gameState = GameState.completed ∨
          s'.gameState = GameState.racing)) ∧
    (∀ (rounds : List RoundInput) (s : GameStoreState) (sch : List Race),
      s.gameState = GameState.racing → s.schedule = some sch →
      s.results = [] → s.currentRoundIndex = 0 →
      sch.map Race.roundNumber = [1, 2, 3, 4, 5, 6] → rounds.length = 6 →
      ∃ s', runRounds rounds s = some s' ∧
        s'.results.length = 6 ∧
        s'.results.map RaceResult.roundNumber = [1, 2, 3, 4, 5, 6] ∧
        s'.gameState = GameState.completed) := by
  constructor
  · intro entries now s sch cr race hsch hcr hrace
    refine ⟨_, completeCurrentRace_run entries now s sch cr race hsch hcr hrace,
      rfl, rfl, ?_, ?_⟩
    · by_cases h : sch.length ≤ s.currentRoundIndex + 1 <;> simp [h]
    · by_cases h : sch.length ≤ s.currentRoundIndex + 1 <;> simp [h]
  · intro rounds s sch hgs hsch hres hidx hrn hrounds
    have hschlen : sch.length = 6 := by
      have := congrArg List.length hrn
      simpa using this
    rcases runRounds_completes rounds s sch hgs hsch (by omega) with
      ⟨s', hrun, hres', hgs'⟩
    have hne : rounds.isEmpty = false := by
      rcases rounds with _ | _
      · simp at hrounds
      · rfl
    have hresmap : s'.results.map RaceResult.roundNumber = [1, 2, 3, 4, 5, 6] := by
      rw [hres', hres, hidx]
      simpa using hrn
    refine ⟨s', hrun, ?_, hresmap, by rw [hgs', hne]; rfl⟩
    have := congrArg List.length hresmap
    simpa using this

/-- Witness for C2: one completion step of the fixture store, and a full
six-round run of it. -/
theorem complete_spec_witness :
    (stateC2.schedule = some schC2 ∧
      stateC2.raceExecution.currentRace = some (raceC2 0) ∧
      schC2[stateC2.currentRoundIndex]? = some (raceC2 0) ∧
      stateC2.gameState = GameState.racing ∧ stateC2.results = [] ∧
      stateC2.currentRoundIndex = 0 ∧
      schC2.map Race.roundNumber = [1, 2, 3, 4, 5, 6] ∧ roundsC2.length = 6) ∧
    (∃ s', completeCurrentRace [] 7 stateC2 = some s' ∧
      s'.results = stateC2.results ++
        [{ roundNumber := (raceC2 0).roundNumber
           distance := (raceC2 0).distance
           results := ([] : List RaceResultEntry).insertionSort
             fun a b => a.position ≤ b.position
           completedAt := 7 }] ∧
      s'.currentRoundIndex = stateC2.currentRoundIndex + 1 ∧
      (s'.gameState = GameState.completed ↔
        schC2.length ≤ stateC2.currentRoundIndex + 1) ∧
      (s'.gameState = GameState.completed ∨ s'.gameState = GameState.racing)) ∧
    (∃ s', runRounds roundsC2 stateC2 = some s' ∧
      s'.results.length = 6 ∧
      s'.results.map RaceResult.roundNumber = [1, 2, 3, 4, 5, 6] ∧
      s'.gameState = GameState.completed) :=
  ⟨⟨rfl, rfl, rfl, rfl, rfl, rfl, rfl, rfl⟩,
   complete_spec.1 [] 7 stateC2 schC2 (raceC2 0) (raceC2 0) rfl rfl rfl,
   complete_spec.2 roundsC2 stateC2 schC2 rfl rfl rfl rfl rfl rfl⟩

-- =============================================================================
-- CLAIM C3: ranking (corrected: the zero finish time falls through to
-- currentTime, because JavaScript `||` treats 0 as falsy)
-- =============================================================================

/-- `hp.finishTime || currentTime` substitutes `currentTime` when the
finish time is absent **or zero**. -/
theorem jsNumOr_eq_ite (ft : Option ℚ) (ct : ℚ) :
    jsNumOr ft ct =
      if ft = none ∨ ft = some 0 then ct else ft.getD 0 := by
  cases ft with
  | none => simp [jsNumOr]
  | some v =>
    by_cases hv : v = 0 <;> simp [jsNumOr, hv]

/-- Counterexample to C3 as stated: an entry whose `finishTime` is present
but equal to 0 gets `currentTime − animationStart` as its time, not
`finishTime − animationStart` as the claim's substitution rule predicts. -/
theorem ranking_claim_counterexample :
    (compileRaceResults
        [{ horseId := "bolt", position := 100, lane := 1, speed := 1,
           finishTime := some 0 }] [] none 5).map RaceResultEntry.time = [5] ∧
    claimedTime (some 0) none 5 = 0 ∧ (5 : ℚ) ≠ 0 := by
  refine ⟨?_, by norm_num [claimedTime], by norm_num⟩
  simp [compileRaceResults, sortByFinishTime, List.insertionSort,
    List.orderedInsert, jsMapIdx, jsMapIdxFrom, jsNumOr]

/-- The stable sort leaves every equal-key class of the input in its
original relative order. -/
theorem sortByFinishTime_stable (l : List HorsePosition) (k : ℚ) :
    (sortByFinishTime l).filter (fun hp => finishKey hp = k) =
      l.filter fun hp => finishKey hp = k := by
  have hsub : (l.filter fun hp => finishKey hp = k).Sublist l :=
    List.filter_sublist l
  have hkey : ∀ a ∈ l.filter (fun hp => finishKey hp = k), finishKey a = k :=
    fun a ha => by simpa using List.of_mem_filter ha
  have hpw : (l.filter fun hp => finishKey hp = k).Pairwise
      fun a b => finishKey a ≤ finishKey b := by
    refine List.pairwise_of_forall_mem_list fun a ha b hb => ?_
    rw [hkey a ha, hkey b hb]
  have hstable : (l.filter fun hp => finishKey hp = k).Sublist
      (sortByFinishTime l) :=
    List.sublist_insertionSort hpw hsub
  have hfilter_self : (l.filter fun hp => finishKey hp = k).filter
      (fun hp => finishKey hp = k) = l.filter fun hp => finishKey hp = k :=
    List.filter_eq_self.2 fun a ha => by simpa using hkey a ha
  have hsub2 : (l.filter fun hp => finishKey hp = k).Sublist
      ((sortByFinishTime l).filter fun hp => finishKey hp = k) := by
    have := hstable.filter fun hp => decide (finishKey hp = k)
    rwa [hfilter_self] at this
  have hperm : List.Perm ((sortByFinishTime l).filter fun hp => finishKey hp = k)
      (l.filter fun hp => finishKey hp = k) :=
    (List.perm_insertionSort _ l).filter _
  exact (hsub2.eq_of_length hperm.length_eq.symm).symm

/-- C3 (amended): `compileRaceResults` sorts ascending by finish time with
a missing finish time keyed as 0, the sort is stable (equal keys keep their
input order), the positions are the dense sequence 1..N over the sorted
order, and each entry's time is finishTime − animationStartTime where
`currentTime` is substituted when finishTime is absent **or zero** and 0 is
substituted when animationStartTime is absent. -/
theorem ranking_spec (l : List HorsePosition) (horses : List Horse)
    (ast : Option ℚ) (ct : ℚ) :
    (sortByFinishTime l).Pairwise (fun a b => finishKey a ≤ finishKey b) ∧
    List.Perm (sortByFinishTime l) l ∧
    (∀ k : ℚ, (sortByFinishTime l).filter (fun hp => finishKey hp = k) =
      l.filter fun hp => finishKey hp = k) ∧
    (compileRaceResults l horses ast ct).length = l.length ∧
    (∀ i, i < l.length →
      ∃ e hp, (compileRaceResults l horses ast ct)[i]? = some e ∧
        (sortByFinishTime l)[i]? = some hp ∧
        e.position = i + 1 ∧ e.horseId = hp.horseId ∧
        e.time = (if hp.finishTime = none ∨ hp.finishTime = some 0 then ct
          else hp.finishTime.getD 0) - ast.getD 0 ∧
        e.horse = horses.find? fun h => h.id == hp.horseId) := by
  have hperm : List.Perm (sortByFinishTime l) l := List.perm_insertionSort _ l
  have hslen : (sortByFinishTime l).length = l.length := hperm.length_eq
  refine ⟨List.sorted_insertionSort _ l, hperm,
    fun k => sortByFinishTime_stable l k, ?_, ?_⟩
  · rw [compileRaceResults]
    rw [jsMapIdx_length]
    exact hslen
  · intro i hi
    have hi' : i < (sortByFinishTime l).length := by rw [hslen]; exact hi
    refine ⟨{ horseId := ((sortByFinishTime l).get ⟨i, hi'⟩).horseId
              position := i + 1
              time := jsNumOr ((sortByFinishTime l).get ⟨i, hi'⟩).finishTime ct -
                jsNumOr ast 0
              horse := horses.find? fun h =>
                h.id == ((sortByFinishTime l).get ⟨i, hi'⟩).horseId },
      (sortByFinishTime l).get ⟨i, hi'⟩, ?_, ?_, rfl, rfl, ?_, rfl⟩
    · rw [compileRaceResults, jsMapIdx_getElem?,
        List.getElem?_eq_getElem hi']
      rfl
    · rw [List.getElem?_eq_getElem hi']
      rfl
    · show jsNumOr ((sortByFinishTime l).get ⟨i, hi'⟩).finishTime ct -
        jsNumOr ast 0 = _
      rw [jsNumOr_eq_ite]
      congr 1
      cases ast with
      | none => rfl
      | some v => by_cases hv : v = 0 <;> simp [jsNumOr, hv]

/-- C3 witness fixtures and instantiation: two horses tied at finish time
3, listed b-then-a, keep that order and get positions 1 and 2; their times
subtract the animation start. -/
theorem ranking_spec_witness :
    (sortByFinishTime
        [{ horseId := "b", position := 100, lane := 1, speed := 1,
           finishTime := some 3 },
         { horseId := "a", position := 100, lane := 2, speed := 1,
           finishTime := some 3 }]).filter
        (fun hp => finishKey hp = 3) =
      ([{ horseId := "b", position := 100, lane := 1, speed := 1,
          finishTime := some 3 },
        { horseId := "a", position := 100, lane := 2, speed := 1,
          finishTime := some 3 }] : List HorsePosition).filter
        (fun hp => finishKey hp = 3) ∧
    (0 : Nat) < 2 ∧
    (∃ e hp, (compileRaceResults
        [{ horseId := "b", position := 100, lane := 1, speed := 1,
           finishTime := some 3 },
         { horseId := "a", position := 100, lane := 2, speed := 1,
           finishTime := some 3 }] [] (some 1) 9)[0]? = some e ∧
      (sortByFinishTime
        [{ horseId := "b", position := 100, lane := 1, speed := 1,
           finishTime := some 3 },
         { horseId := "a", position := 100, lane := 2, speed := 1,
           finishTime := some 3 }])[0]? = some hp ∧
      e.position = 0 + 1 ∧ e.horseId = hp.horseId ∧
      e.time = (if hp.finishTime = none ∨ hp.finishTime = some 0 then (9 : ℚ)
        else hp.finishTime.getD 0) - (some (1 : ℚ)).getD 0 ∧
      e.horse = ([] : List Horse).find? fun h => h.id == hp.horseId) :=
  ⟨(ranking_spec
      [{ horseId := "b", position := 100, lane := 1, speed := 1,
         finishTime := some 3 },
       { horseId := "a", position := 100, lane := 2, speed := 1,
         finishTime := some 3 }] [] (some 1) 9).2.2.1 3,
   by norm_num,
   (ranking_spec
      [{ horseId := "b", position := 100, lane := 1, speed := 1,
         finishTime := some 3 },
       { horseId := "a", position := 100, lane := 2, speed := 1,
         finishTime := some 3 }] [] (some 1) 9).2.2.2.2 0 (by norm_num)⟩

-- =============================================================================
-- CLAIM C9: the faster horse wins the two-horse synthetic race
-- =============================================================================

theorem calculateNewPosition_speed (hp : HorsePosition) (dt dm sv ct : ℚ) :
    (calculateNewPosition hp dt dm sv ct).speed = hp.speed := by
  cases h : hp.finishTime with
  | some t => rw [calculateNewPosition_of_some hp t h]
  | none => rw [calculateNewPosition_of_none hp h]

theorem calculateNewPosition_horseId (hp : HorsePosition) (dt dm sv ct : ℚ) :
    (calculateNewPosition hp dt dm sv ct).horseId = hp.horseId := by
  cases h : hp.finishTime with
  | some t => rw [calculateNewPosition_of_some hp t h]
  | none => rw [calculateNewPosition_of_none hp h]

/-- `some t || 0` is always `t` (both `0 || 0` and `t || 0` give `t`). -/
theorem jsNumOr_some_zero (t : ℚ) : jsNumOr (some t) 0 = t := by
  by_cases h : t = 0 <;> simp [jsNumOr, h]

/-- Ranking a two-element list whose first element has the smaller-or-equal
key: the first stays first (stability) and gets position 1. -/
theorem compileRaceResults_pair (a b : HorsePosition)
    (h : finishKey a ≤ finishKey b) (horses : List Horse) (ast : Option ℚ)
    (now : ℚ) :
    (compileRaceResults [a, b] horses ast now).map
        (fun e => (e.horseId, e.position)) =
      [(a.horseId, 1), (b.horseId, 2)] := by
  have hsort : sortByFinishTime [a, b] = [a, b] := by
    simp [sortByFinishTime, List.insertionSort, List.orderedInsert, h]
  rw [compileRaceResults]
  rw [hsort]
  simp [jsMapIdx, jsMapIdxFrom]

/-- The running invariant of the two-horse race (speed 1 vs speed 1/2,
`deltaTime = 16`, distance multiplier at least 1).  Either no horse has
finished and the fast horse is at least 4/3 as far along, or only the fast
horse has finished, or both have — with the fast horse's finish recorded at
a strictly earlier tick. -/
theorem runTicks_inv (dm : ℚ) (hdm : 1 ≤ dm) (svA svB ct : ℕ → ℚ)
    (hsvA : ∀ n, 4 / 5 ≤ svA n ∧ svA n ≤ 6 / 5)
    (hsvB : ∀ n, 4 / 5 ≤ svB n ∧ svB n ≤ 6 / 5)
    (a0 b0 : HorsePosition)
    (ha0 : a0.position = 0) (hb0 : b0.position = 0)
    (ha0ft : a0.finishTime = none) (hb0ft : b0.finishTime = none)
    (haspeed : a0.speed = 1) (hbspeed : b0.speed = 1 / 2) :
    ∀ n : ℕ,
      (runTicks dm svA svB ct a0 b0 n).1.speed = 1 ∧
      (runTicks dm svA svB ct a0 b0 n).2.speed = 1 / 2 ∧
      (runTicks dm svA svB ct a0 b0 n).1.horseId = a0.horseId ∧
      (runTicks dm svA svB ct a0 b0 n).2.horseId = b0.horseId ∧
      (((runTicks dm svA svB ct a0 b0 n).1.finishTime = none ∧
        (runTicks dm svA svB ct a0 b0 n).2.finishTime = none ∧
        0 ≤ (runTicks dm svA svB ct a0 b0 n).2.position ∧
        (runTicks dm svA svB ct a0 b0 n).2.position < 100 ∧
        (runTicks dm svA svB ct a0 b0 n).1.position < 100 ∧
        4 / 3 * (runTicks dm svA svB ct a0 b0 n).2.position ≤
          (runTicks dm svA svB ct a0 b0 n).1.position) ∨
       (∃ i, i < n ∧
         (runTicks dm svA svB ct a0 b0 n).1.finishTime = some (ct i) ∧
         (runTicks dm svA svB ct a0 b0 n).2.finishTime = none ∧
         0 ≤ (runTicks dm svA svB ct a0 b0 n).2.position ∧
         (runTicks dm svA svB ct a0 b0 n).2.position < 100) ∨
       (∃ i j, i < j ∧ j < n ∧
         (runTicks dm svA svB ct a0 b0 n).1.finishTime = some (ct i) ∧
         (runTicks dm svA svB ct a0 b0 n).2.finishTime = some (ct j))) := by
  -- bounds on the per-tick normalization factor
  have h50 : (0 : ℚ) < SPEED_DIVISOR * dm := by
    have : (0 : ℚ) < SPEED_DIVISOR := by norm_num [SPEED_DIVISOR]
    nlinarith
  have hk0 : 0 < (16 : ℚ) / (SPEED_DIVISOR * dm) := by positivity
  have hk32 : (16 : ℚ) / (SPEED_DIVISOR * dm) ≤ 8 / 25 := by
    rw [div_le_div_iff h50 (by norm_num)]
    have : SPEED_DIVISOR = (50 : ℚ) := rfl
    rw [this]
    linarith
  intro n
  induction n with
  | zero =>
    refine ⟨haspeed, hbspeed, rfl, rfl, Or.inl ?_⟩
    rw [show (runTicks dm svA svB ct a0 b0 0).1 = a0 from rfl,
      show (runTicks dm svA svB ct a0 b0 0).2 = b0 from rfl, ha0, hb0,
      ha0ft, hb0ft]
    norm_num
  | succ n ih =>
    obtain ⟨hsA, hsB, hidA, hidB, hcase⟩ := ih
    have hr1 : (runTicks dm svA svB ct a0 b0 (n + 1)).1 =
        calculateNewPosition (runTicks dm svA svB ct a0 b0 n).1 16 dm (svA n)
          (ct n) := rfl
    have hr2 : (runTicks dm svA svB ct a0 b0 (n + 1)).2 =
        calculateNewPosition (runTicks dm svA svB ct a0 b0 n).2 16 dm (svB n)
          (ct n) := rfl
    rw [hr1, hr2]
    refine ⟨(calculateNewPosition_speed _ _ _ _ _).trans hsA,
      (calculateNewPosition_speed _ _ _ _ _).trans hsB,
      (calculateNewPosition_horseId _ _ _ _ _).trans hidA,
      (calculateNewPosition_horseId _ _ _ _ _).trans hidB, ?_⟩
    -- bounds on the two movement amounts
    have hmA1 : 4 / 5 * ((16 : ℚ) / (SPEED_DIVISOR * dm)) ≤
        (runTicks dm svA svB ct a0 b0 n).1.speed * svA n *
          (16 / (SPEED_DIVISOR * dm)) := by
      rw [hsA, one_mul]
      exact mul_le_mul_of_nonneg_right (hsvA n).1 hk0.le
    have hmA2 : (runTicks dm svA svB ct a0 b0 n).1.speed * svA n *
        (16 / (SPEED_DIVISOR * dm)) ≤
        6 / 5 * ((16 : ℚ) / (SPEED_DIVISOR * dm)) := by
      rw [hsA, one_mul]
      exact mul_le_mul_of_nonneg_right (hsvA n).2 hk0.le
    have hmB1 : 2 / 5 * ((16 : ℚ) / (SPEED_DIVISOR * dm)) ≤
        (runTicks dm svA svB ct a0 b0 n).2.speed * svB n *
          (16 / (SPEED_DIVISOR * dm)) := by
      rw [hsB]
      have := mul_le_mul_of_nonneg_right (hsvB n).1 hk0.le
      nlinarith
    have hmB2 : (runTicks dm svA svB ct a0 b0 n).2.speed * svB n *
        (16 / (SPEED_DIVISOR * dm)) ≤
        3 / 5 * ((16 : ℚ) / (SPEED_DIVISOR * dm)) := by
      rw [hsB]
      have := mul_le_mul_of_nonneg_right (hsvB n).2 hk0.le
      nlinarith
    rcases hcase with ⟨hAft, hBft, hB0, hB100, hA100, hrat⟩ | 
      ⟨i, hin, hAft, hBft, hB0, hB100⟩ | ⟨i, j, hij, hjn, hAft, hBft⟩
    · -- neither finished yet
      have hBnc : (runTicks dm svA svB ct a0 b0 n).2.position +
          (runTicks dm svA svB ct a0 b0 n).2.speed * svB n *
            (16 / (SPEED_DIVISOR * dm)) < 100 := by
        by_contra hcon
        push_neg at hcon
        linarith
      have hb' : calculateNewPosition (runTicks dm svA svB ct a0 b0 n).2 16 dm
          (svB n) (ct n) =
          { (runTicks dm svA svB ct a0 b0 n).2 with
            position := (runTicks dm svA svB ct a0 b0 n).2.position +
              (runTicks dm svA svB ct a0 b0 n).2.speed * svB n *
                (16 / (SPEED_DIVISOR * dm))
            finishTime := none } := by
        rw [calculateNewPosition_of_none _ hBft, min_eq_left hBnc.le, if_neg]
        intro hcon
        linarith [hcon.2]
      by_cases hAcross : 100 ≤ (runTicks dm svA svB ct a0 b0 n).1.position +
          (runTicks dm svA svB ct a0 b0 n).1.speed * svA n *
            (16 / (SPEED_DIVISOR * dm))
      · -- the fast horse crosses on this tick
        have ha' : calculateNewPosition (runTicks dm svA svB ct a0 b0 n).1 16 dm
            (svA n) (ct n) =
            { (runTicks dm svA svB ct a0 b0 n).1 with
              position := 100
              finishTime := some (ct n) } := by
          rw [calculateNewPosition_of_none _ hAft, min_eq_right hAcross,
            if_pos ⟨hA100, le_refl (100 : ℚ)⟩]
        refine Or.inr (Or.inl ⟨n, n.lt_succ_self, ?_, ?_, ?_, ?_⟩)
        · rw [ha']
        · rw [hb']
        · rw [hb']
          show 0 ≤ (runTicks dm svA svB ct a0 b0 n).2.position + _
          linarith
        · rw [hb']
          exact hBnc
      · -- nobody crosses: positions advance, the ratio is preserved
        push_neg at hAcross
        have ha' : calculateNewPosition (runTicks dm svA svB ct a0 b0 n).1 16 dm
            (svA n) (ct n) =
            { (runTicks dm svA svB ct a0 b0 n).1 with
              position := (runTicks dm svA svB ct a0 b0 n).1.position +
                (runTicks dm svA svB ct a0 b0 n).1.speed * svA n *
                  (16 / (SPEED_DIVISOR * dm))
              finishTime := none } := by
          rw [calculateNewPosition_of_none _ hAft, min_eq_left hAcross.le,
            if_neg]
          intro hcon
          linarith [hcon.2]
        refine Or.inl ⟨?_, ?_, ?_, ?_, ?_, ?_⟩
        · rw [ha']
        · rw [hb']
        · rw [hb']
          show 0 ≤ (runTicks dm svA svB ct a0 b0 n).2.position + _
          linarith
        · rw [hb']
          exact hBnc
        · rw [ha']
          exact hAcross
        · rw [ha', hb']
          show 4 / 3 * ((runTicks dm svA svB ct a0 b0 n).2.position + _) ≤
            (runTicks dm svA svB ct a0 b0 n).1.position + _
          linarith
    · -- only the fast horse has finished
      have ha' : calculateNewPosition (runTicks dm svA svB ct a0 b0 n).1 16 dm
          (svA n) (ct n) = (runTicks dm svA svB ct a0 b0 n).1 :=
        calculateNewPosition_of_some _ (ct i) hAft 16 dm (svA n) (ct n)
      by_cases hBcross : 100 ≤ (runTicks dm svA svB ct a0 b0 n).2.position +
          (runTicks dm svA svB ct a0 b0 n).2.speed * svB n *
            (16 / (SPEED_DIVISOR * dm))
      · -- the slow horse crosses now, at a strictly later tick
        have hb' : calculateNewPosition (runTicks dm svA svB ct a0 b0 n).2 16 dm
            (svB n) (ct n) =
            { (runTicks dm svA svB ct a0 b0 n).2 with
              position := 100
              finishTime := some (ct n) } := by
          rw [calculateNewPosition_of_none _ hBft, min_eq_right hBcross,
            if_pos ⟨hB100, le_refl (100 : ℚ)⟩]
        refine Or.inr (Or.inr ⟨i, n, hin, n.lt_succ_self, ?_, ?_⟩)
        · rw [ha']
          exact hAft
        · rw [hb']
      · push_neg at hBcross
        have hb' : calculateNewPosition (runTicks dm svA svB ct a0 b0 n).2 16 dm
            (svB n) (ct n) =
            { (runTicks dm svA svB ct a0 b0 n).2 with
              position := (runTicks dm svA svB ct a0 b0 n).2.position +
                (runTicks dm svA svB ct a0 b0 n).2.speed * svB n *
                  (16 / (SPEED_DIVISOR * dm))
              finishTime := none } := by
          rw [calculateNewPosition_of_none _ hBft, min_eq_left hBcross.le,
            if_neg]
          intro hcon
          linarith [hcon.2]
        refine Or.inr (Or.inl ⟨i, hin.trans n.lt_succ_self, ?_, ?_, ?_, ?_⟩)
        · rw [ha']
          exact hAft
        · rw [hb']
        · rw [hb']
          show 0 ≤ (runTicks dm svA svB ct a0 b0 n).2.position + _
          linarith
        · rw [hb']
          exact hBcross
    · -- both finished: frozen
      have ha' : calculateNewPosition (runTicks dm svA svB ct a0 b0 n).1 16 dm
          (svA n) (ct n) = (runTicks dm svA svB ct a0 b0 n).1 :=
        calculateNewPosition_of_some _ (ct i) hAft 16 dm (svA n) (ct n)
      have hb' : calculateNewPosition (runTicks dm svA svB ct a0 b0 n).2 16 dm
          (svB n) (ct n) = (runTicks dm svA svB ct a0 b0 n).2 :=
        calculateNewPosition_of_some _ (ct j) hBft 16 dm (svB n) (ct n)
      refine Or.inr (Or.inr ⟨i, j, hij, hjn.trans n.lt_succ_self, ?_, ?_⟩)
      · rw [ha']
        exact hAft
      · rw [hb']
        exact hBft

/-- C9: in the two-participant synthetic race (both start at 0 unfinished,
speeds 1 and 1/2, every tick uses `deltaTime = 16`, the same distance
multiplier of at least 1 — every real race has distance ≥ 1200, so its
multiplier is ≥ 1 — and the same strictly increasing per-tick timestamps,
with arbitrary per-horse speed variations in [0.8, 1.2]): whenever both
horses have finished, the speed-1 horse holds a strictly earlier finish
time and `compileRaceResults` ranks it first. -/
theorem two_horse_spec (dm : ℚ) (hdm : 1 ≤ dm) (svA svB ct : ℕ → ℚ)
    (hsvA : ∀ n, 4 / 5 ≤ svA n ∧ svA n ≤ 6 / 5)
    (hsvB : ∀ n, 4 / 5 ≤ svB n ∧ svB n ≤ 6 / 5)
    (hct : StrictMono ct)
    (a0 b0 : HorsePosition)
    (ha0 : a0.position = 0) (hb0 : b0.position = 0)
    (ha0ft : a0.finishTime = none) (hb0ft : b0.finishTime = none)
    (haspeed : a0.speed = 1) (hbspeed : b0.speed = 1 / 2)
    (N : ℕ)
    (hfinA : ((runTicks dm svA svB ct a0 b0 N).1.finishTime).isSome = true)
    (hfinB : ((runTicks dm svA svB ct a0 b0 N).2.finishTime).isSome = true) :
    ∃ tA tB : ℚ,
      (runTicks dm svA svB ct a0 b0 N).1.finishTime = some tA ∧
      (runTicks dm svA svB ct a0 b0 N).2.finishTime = some tB ∧ tA < tB ∧
      ∀ (horses : List Horse) (ast : Option ℚ) (now : ℚ),
        (compileRaceResults
            [(runTicks dm svA svB ct a0 b0 N).1,
             (runTicks dm svA svB ct a0 b0 N).2] horses ast now).map
          (fun e => (e.horseId, e.position)) =
        [(a0.horseId, 1), (b0.horseId, 2)] := by
  obtain ⟨_, _, hidA, hidB, hcase⟩ := runTicks_inv dm hdm svA svB ct hsvA hsvB
    a0 b0 ha0 hb0 ha0ft hb0ft haspeed hbspeed N
  rcases hcase with ⟨_, hBft, _⟩ | ⟨i, _, _, hBft, _⟩ | ⟨i, j, hij, _, hAft, hBft⟩
  · rw [hBft] at hfinB
    simp at hfinB
  · rw [hBft] at hfinB
    simp at hfinB
  · refine ⟨ct i, ct j, hAft, hBft, hct hij, ?_⟩
    intro horses ast now
    have hkey : finishKey (runTicks dm svA svB ct a0 b0 N).1 ≤
        finishKey (runTicks dm svA svB ct a0 b0 N).2 := by
      rw [finishKey, finishKey, hAft, hBft, jsNumOr_some_zero,
        jsNumOr_some_zero]
      exact (hct hij).le
    rw [compileRaceResults_pair _ _ hkey horses ast now, hidA, hidB]

/-- A non-crossing update step in closed form. -/
theorem calc_step_move (hp : HorsePosition) (dt dm sv ct p m : ℚ)
    (hft : hp.finishTime = none) (hpos : hp.position = p)
    (hmove : hp.speed * sv * (dt / (SPEED_DIVISOR * dm)) = m)
    (hlt : p + m < 100) :
    calculateNewPosition hp dt dm sv ct =
      { hp with position := p + m, finishTime := none } := by
  rw [calculateNewPosition_of_none hp hft, hpos, hmove, min_eq_left hlt.le,
    if_neg]
  intro hcon
  linarith [hcon.2]

/-- A crossing update step in closed form. -/
theorem calc_step_cross (hp : HorsePosition) (dt dm sv ct p m : ℚ)
    (hft : hp.finishTime = none) (hpos : hp.position = p)
    (hmove : hp.speed * sv * (dt / (SPEED_DIVISOR * dm)) = m)
    (hplt : p < 100) (hge : 100 ≤ p + m) :
    calculateNewPosition hp dt dm sv ct =
      { hp with position := 100, finishTime := some ct } := by
  rw [calculateNewPosition_of_none hp hft, hpos, hmove, min_eq_right hge,
    if_pos ⟨hplt, le_refl (100 : ℚ)⟩]

/-- Ticks 0–312 of the deterministic run: positions grow linearly, nobody
has finished. -/
theorem runC9_phase1 : ∀ n, n ≤ 312 →
    runC9 n = ({ a0C9 with position := 8 / 25 * (n : ℚ) },
               { b0C9 with position := 4 / 25 * (n : ℚ) }) := by
  intro n
  induction n with
  | zero =>
    intro _
    show (a0C9, b0C9) = _
    simp [a0C9, b0C9]
  | succ n ih =>
    intro hn
    have hcast : (n : ℚ) ≤ 311 := by exact_mod_cast Nat.lt_succ_iff.1 hn
    have hprev := ih (Nat.le_of_succ_le hn)
    have hstep : runC9 (n + 1) =
        (calculateNewPosition (runC9 n).1 16 1 1 ((n : ℕ) : ℚ),
         calculateNewPosition (runC9 n).2 16 1 1 ((n : ℕ) : ℚ)) := rfl
    rw [hstep, hprev]
    dsimp only
    rw [calc_step_move _ 16 1 1 _ (8 / 25 * (n : ℚ)) (8 / 25) rfl rfl
        (by norm_num [a0C9, SPEED_DIVISOR]) (by linarith),
      calc_step_move _ 16 1 1 _ (4 / 25 * (n : ℚ)) (4 / 25) rfl rfl
        (by norm_num [b0C9, SPEED_DIVISOR]) (by linarith)]
    simp only [Prod.mk.injEq, HorsePosition.mk.injEq, a0C9, b0C9]
    push_cast
    all_goals ring_nf
    all_goals norm_num

/-- Ticks 313–624: the fast horse is frozen at 100 with finish time 312,
the slow horse still advances linearly. -/
theorem runC9_phase2 : ∀ m, 313 + m ≤ 624 →
    runC9 (313 + m) =
      ({ a0C9 with position := 100, finishTime := some ((312 : ℕ) : ℚ) },
       { b0C9 with position := 4 / 25 * (313 + (m : ℚ)) }) := by
  intro m
  induction m with
  | zero =>
    intro _
    have hprev := runC9_phase1 312 (le_refl 312)
    have hstep : runC9 313 =
        (calculateNewPosition (runC9 312).1 16 1 1 ((312 : ℕ) : ℚ),
         calculateNewPosition (runC9 312).2 16 1 1 ((312 : ℕ) : ℚ)) := rfl
    rw [show (313 + 0 : ℕ) = 313 from rfl, hstep, hprev]
    dsimp only
    rw [calc_step_cross _ 16 1 1 _ (8 / 25 * ((312 : ℕ) : ℚ)) (8 / 25) rfl rfl
        (by norm_num [a0C9, SPEED_DIVISOR]) (by norm_num) (by norm_num),
      calc_step_move _ 16 1 1 _ (4 / 25 * ((312 : ℕ) : ℚ)) (4 / 25) rfl rfl
        (by norm_num [b0C9, SPEED_DIVISOR]) (by norm_num)]
    simp only [Prod.mk.injEq, HorsePosition.mk.injEq, a0C9, b0C9]
    norm_num
  | succ m ih =>
    intro hm
    have hm' : 313 + m ≤ 624 := by omega
    have hcastm : (m : ℚ) ≤ 310 := by
      have : m ≤ 310 := by omega
      exact_mod_cast this
    have hprev := ih hm'
    have hstep : runC9 (313 + (m + 1)) =
        (calculateNewPosition (runC9 (313 + m)).1 16 1 1 (((313 + m : ℕ)) : ℚ),
         calculateNewPosition (runC9 (313 + m)).2 16 1 1 (((313 + m : ℕ)) : ℚ)) :=
      rfl
    rw [hstep, hprev]
    dsimp only
    rw [calculateNewPosition_of_some _ ((312 : ℕ) : ℚ) rfl,
      calc_step_move _ 16 1 1 _ (4 / 25 * (313 + (m : ℚ))) (4 / 25) rfl rfl
        (by norm_num [b0C9, SPEED_DIVISOR]) (by linarith)]
    simp only [Prod.mk.injEq, HorsePosition.mk.injEq, a0C9, b0C9]
    push_cast
    all_goals ring_nf
    all_goals norm_num

/-- Tick 625 of the deterministic run: both horses have finished, the fast
one at tick 312 and the slow one at tick 624. -/
theorem runC9_final : runC9 625 =
    ({ a0C9 with position := 100, finishTime := some ((312 : ℕ) : ℚ) },
     { b0C9 with position := 100, finishTime := some ((624 : ℕ) : ℚ) }) := by
  have hprev : runC9 624 =
      ({ a0C9 with position := 100, finishTime := some ((312 : ℕ) : ℚ) },
       { b0C9 with position := 4 / 25 * (313 + (311 : ℚ)) }) := by
    have := runC9_phase2 311 (by omega)
    rwa [show (313 + 311 : ℕ) = 624 from rfl] at this
  have hstep : runC9 625 =
      (calculateNewPosition (runC9 624).1 16 1 1 ((624 : ℕ) : ℚ),
       calculateNewPosition (runC9 624).2 16 1 1 ((624 : ℕ) : ℚ)) := rfl
  rw [hstep, hprev]
  dsimp only
  rw [calculateNewPosition_of_some _ ((312 : ℕ) : ℚ) rfl,
    calc_step_cross _ 16 1 1 _ (4 / 25 * (313 + (311 : ℚ))) (4 / 25) rfl rfl
      (by norm_num [b0C9, SPEED_DIVISOR]) (by norm_num) (by norm_num)]

/-- Witness for C9: the deterministic run finishes by tick 625; the fast
horse holds finish time 312, the slow one 624, and the ranking puts the
fast horse first. -/
theorem two_horse_spec_witness :
    ((1 : ℚ) ≤ 1 ∧ (∀ n : ℕ, 4 / 5 ≤ (1 : ℚ) ∧ (1 : ℚ) ≤ 6 / 5) ∧
      StrictMono (fun m : ℕ => (m : ℚ)) ∧
      a0C9.position = 0 ∧ b0C9.position = 0 ∧ a0C9.finishTime = none ∧
      b0C9.finishTime = none ∧ a0C9.speed = 1 ∧ b0C9.speed = 1 / 2 ∧
      ((runTicks 1 (fun _ => 1) (fun _ => 1) (fun m => (m : ℚ)) a0C9 b0C9
        625).1.finishTime).isSome = true ∧
      ((runTicks 1 (fun _ => 1) (fun _ => 1) (fun m => (m : ℚ)) a0C9 b0C9
        625).2.finishTime).isSome = true) ∧
    (∃ tA tB : ℚ,
      (runTicks 1 (fun _ => 1) (fun _ => 1) (fun m => (m : ℚ)) a0C9 b0C9
        625).1.finishTime = some tA ∧
      (runTicks 1 (fun _ => 1) (fun _ => 1) (fun m => (m : ℚ)) a0C9 b0C9
        625).2.finishTime = some tB ∧ tA < tB ∧
      ∀ (horses : List Horse) (ast : Option ℚ) (now : ℚ),
        (compileRaceResults
            [(runTicks 1 (fun _ => 1) (fun _ => 1) (fun m => (m : ℚ)) a0C9 b0C9
              625).1,
             (runTicks 1 (fun _ => 1) (fun _ => 1) (fun m => (m : ℚ)) a0C9 b0C9
              625).2] horses ast now).map
          (fun e => (e.horseId, e.position)) =
        [(a0C9.horseId, 1), (b0C9.horseId, 2)]) :=
  ⟨⟨le_refl 1, fun _ => ⟨by norm_num, by norm_num⟩,
    fun a b h => by show (a : ℚ) < (b : ℚ); exact_mod_cast h,
    rfl, rfl, rfl, rfl, rfl, rfl,
    by rw [show runTicks 1 (fun _ => 1) (fun _ => 1) (fun m => (m : ℚ)) a0C9
        b0C9 625 = runC9 625 from rfl, runC9_final]; rfl,
    by rw [show runTicks 1 (fun _ => 1) (fun _ => 1) (fun m => (m : ℚ)) a0C9
        b0C9 625 = runC9 625 from rfl, runC9_final]; rfl⟩,
   two_horse_spec 1 (le_refl 1) (fun _ => 1) (fun _ => 1) (fun m => (m : ℚ))
     (fun _ => ⟨by norm_num, by norm_num⟩) (fun _ => ⟨by norm_num, by norm_num⟩)
     (fun a b h => by show (a : ℚ) < (b : ℚ); exact_mod_cast h)
     a0C9 b0C9 rfl rfl rfl rfl rfl rfl 625
     (by rw [show runTicks 1 (fun _ => 1) (fun _ => 1) (fun m => (m : ℚ)) a0C9
        b0C9 625 = runC9 625 from rfl, runC9_final]; rfl)
     (by rw [show runTicks 1 (fun _ => 1) (fun _ => 1) (fun m => (m : ℚ)) a0C9
        b0C9 625 = runC9 625 from rfl, runC9_final]; rfl)⟩

end HorseRace
